import Mathlib

/-!
# microchat: a shallow embedding of the chat server

The development embeds two variants of the server found in the repository:

* `Lib`  : package `lib` (`lib/server.go`, `lib/client.go`, `lib/room.go`, `lib/command.go`);
* `Main` : the root package (`server.go`, `client.go`), as far as admission and the JOIN
  handler go.

Modelling conventions, shared by both variants.

* A Go string is a Lean `String`, the text whose UTF-8 encoding the bytes of the Go string
  are.  The lines a connection delivers are such texts.  The one operation of the program that
  can leave bytes which are no encoding of a text is the cut `line[:MAX_MSG_BODY]` of
  `readLimitedMessage`, when it falls inside a multi-byte character: each byte `b` that is kept
  of the cut character is then the one character `rawByte b` of the private use area (see
  `truncateBytes`).  Like the byte it stands for, such a character is no white space, no
  separator, and occurs in no literal of the program.
* A `*client` pointer is a `ClientId`, an index into the heap `clientAt`.  Every client owns
  exactly one connection and `conn.RemoteAddr()` returns the same pointer-valued `net.Addr`
  for the life of the connection, so the key `c.conn.RemoteAddr()` of the two
  `map[net.Addr]*client` maps is identified with the client itself.  Every insertion in the
  source has the shape `m[c.conn.RemoteAddr()] = c`, hence such a map is given by the list of
  its keys; iteration (`range`) visits the keys in list order.
* A `*room` pointer is a `RoomId`, an index into the heap `roomAt`.
* `conn.Write(b)` appends `b` to the field `written` of the owning client, `conn.Close()` sets
  `closed`.  Both record the calls made on the connection.
* A run-time panic (index or slice bound out of range, nil dereference) is the result `none`.
-/

namespace strings

/-- Go `strings.HasPrefix(s, p)`. -/
def HasPrefix (s p : String) : Bool :=
  p.data.isPrefixOf s.data

/-- Go `strings.Join(elems, sep)`. -/
def Join (elems : List String) (sep : String) : String :=
  sep.intercalate elems

/-- Go `strings.Trim(s, cutset)`: `s` without the leading and trailing characters that occur
in `cutset`. -/
def Trim (s cutset : String) : String :=
  ⟨((s.data.dropWhile (fun ch => cutset.data.contains ch)).reverse.dropWhile
      (fun ch => cutset.data.contains ch)).reverse⟩

/-- Go `unicode.IsSpace`: the characters with the Unicode White_Space property. -/
def isSpace (ch : Char) : Bool :=
  let n := ch.toNat
  n == 9 || n == 10 || n == 11 || n == 12 || n == 13 || n == 32 || n == 0x85 || n == 0xA0
    || n == 0x1680 || (0x2000 ≤ n && n ≤ 0x200A) || n == 0x2028 || n == 0x2029
    || n == 0x202F || n == 0x205F || n == 0x3000

/-- Go `strings.TrimSpace(s)`. -/
def TrimSpace (s : String) : String :=
  ⟨((s.data.dropWhile isSpace).reverse.dropWhile isSpace).reverse⟩

/-- The pieces of a character list between the occurrences of `sep`; never empty. -/
def splitChars (sep : Char) : List Char → List (List Char)
  | [] => [[]]
  | ch :: rest =>
    if ch = sep then [] :: splitChars sep rest
    else
      match splitChars sep rest with
      | [] => [[ch]]
      | tok :: toks => (ch :: tok) :: toks

/-- Go `strings.Split(s, sep)` for a separator `sep` of one character (the source only calls
it with `" "`). -/
def Split (s : String) (sep : Char) : List String :=
  (splitChars sep s.data).map String.mk

end strings

/-- Insertion of a key into a Go map given by its key list: an existing key stays where it
is, a new key is added. -/
def mapInsert (k : Nat) (keys : List Nat) : List Nat :=
  if k ∈ keys then keys else keys ++ [k]

/-- Go `delete(m, k)` on a map given by its key list. -/
def mapDelete (k : Nat) (keys : List Nat) : List Nat :=
  keys.filter (fun a => a ≠ k)

/-- Go slice expression `xs[n:]`, which panics when `n` exceeds the length. -/
def sliceFrom {α : Type} (xs : List α) (n : Nat) : Option (List α) :=
  if n ≤ xs.length then some (xs.drop n) else none

/-- Rendering of a point in time by `time.Format("2006-01-02 15:04:05")` and of a duration by
`%s`; the Go standard library is outside the repository, the instant is kept as a numeral. -/
def timeString (t : Nat) : String :=
  toString t

namespace Lib

/-- A `*client` pointer. -/
abbrev ClientId := Nat

/-- A `*room` pointer. -/
abbrev RoomId := Nat

/-- The struct `client` of `lib/client.go`.  The field `conn` is represented by what the
server can observe of it: the remote address string, the bytes written and whether it was
closed.  The field `commands` is the one shared channel and is left out. -/
structure client where
  nick : String
  room : Option RoomId
  remoteAddr : String
  joined : Nat
  written : List String
  closed : Bool

/-- The struct `room` of `lib/room.go`; `members` is the key list of the roster map. -/
structure room where
  name : String
  members : List ClientId

/-- The type `commandID` of `lib/command.go`. -/
inductive commandID where
  | CMD_NICK
  | CMD_JOIN
  | CMD_ROOMS
  | CMD_MSG
  | CMD_MSG_USER
  | CMD_LIST_MEMBERS
  | CMD_WHOIS
  | CMD_ME
  | CMD_HELP
  | CMD_QUIT
  deriving DecidableEq

/-- The struct `command` of `lib/command.go`; a nil `args` slice is the empty list. -/
structure command where
  id : commandID
  client : ClientId
  args : List String
  deriving DecidableEq

/-- The struct `Server` of `lib/server.go` together with the two heaps its pointers point
into.  `rooms` is the room table `map[string]*room` as an association list, `members` the key
list of the directory `map[net.Addr]*client`; `nextClient` and `nextRoom` are the allocation
frontiers of the heaps. -/
structure Server where
  rooms : List (String × RoomId)
  members : List ClientId
  clientAt : ClientId → client
  roomAt : RoomId → room
  nextClient : Nat
  nextRoom : Nat

/-- The constant `MAX_MSG_BODY` of `lib/client.go`. -/
def MAX_MSG_BODY : Nat := 4096

/-- The function `NewServer`: empty room table and directory, nothing allocated. -/
def NewServer : Server where
  rooms := []
  members := []
  clientAt := fun _ =>
    ⟨"", none, "", 0, [], false⟩
  roomAt := fun _ => ⟨"", []⟩
  nextClient := 0
  nextRoom := 0

/-- A raw `c.conn.Write([]byte(b))`. -/
def connWrite (s : Server) (c : ClientId) (b : String) : Server :=
  let c1 : client := { s.clientAt c with written := (s.clientAt c).written ++ [b] }
  { s with clientAt := Function.update s.clientAt c c1 }

/-- Method `client.msg`: writes `msg` followed by a newline. -/
def client.msg (s : Server) (c : ClientId) (msg : String) : Server :=
  connWrite s c (msg ++ "\n")

/-- Method `client.err`: writes `"err: "` and the error text, without a newline. -/
def client.err (s : Server) (c : ClientId) (err : String) : Server :=
  connWrite s c ("err: " ++ err)

/-- Method `room.broadcast`: every roster key other than the sender's is sent `msg`. -/
def room.broadcast (s : Server) (r : RoomId) (sender : ClientId) (msg : String) : Server :=
  (s.roomAt r).members.foldl
    (fun acc addr => if sender ≠ addr then client.msg acc addr msg else acc) s

/-- Method `room.addMember`. -/
def room.addMember (s : Server) (r : RoomId) (c : ClientId) : Server :=
  let r1 : room := { s.roomAt r with members := mapInsert c (s.roomAt r).members }
  let s1 : Server := { s with roomAt := Function.update s.roomAt r r1 }
  room.broadcast s1 r c ((s1.clientAt c).nick ++ " has joined the room")

/-- Method `room.removeMember`. -/
def room.removeMember (s : Server) (r : RoomId) (c : ClientId) : Server :=
  let r1 : room := { s.roomAt r with members := mapDelete c (s.roomAt r).members }
  let s1 : Server := { s with roomAt := Function.update s.roomAt r r1 }
  room.broadcast s1 r c ((s1.clientAt c).nick ++ " has left the room")

/-- Assignment `c.room = r`. -/
def setRoom (s : Server) (c : ClientId) (r : Option RoomId) : Server :=
  let c1 : client := { s.clientAt c with room := r }
  { s with clientAt := Function.update s.clientAt c c1 }

/-- Assignment `c.nick = n`. -/
def setNick (s : Server) (c : ClientId) (n : String) : Server :=
  let c1 : client := { s.clientAt c with nick := n }
  { s with clientAt := Function.update s.clientAt c c1 }

/-- Method `client.leave`. -/
def client.leave (s : Server) (c : ClientId) : Server :=
  match (s.clientAt c).room with
  | none => s
  | some oldRoom => room.removeMember (setRoom s c none) oldRoom c

/-- Method `client.join`. -/
def client.join (s : Server) (c : ClientId) (r : RoomId) : Server :=
  room.addMember (setRoom (client.leave s c) c (some r)) r c

/-- Method `client.whois`; `now` is the clock read by `time.Since`. -/
def client.whois (s : Server) (now : Nat) (c other : ClientId) : Server :=
  let o := s.clientAt other
  let s1 := client.msg s c ("nick: " ++ o.nick)
  let s2 := client.msg s1 c ("addr: " ++ o.remoteAddr)
  let s3 := client.msg s2 c ("joined: " ++ timeString o.joined)
  let s4 := client.msg s3 c ("since: " ++ timeString (now - o.joined))
  match o.room with
  | some r => client.msg s4 c ("room: " ++ (s4.roomAt r).name)
  | none => s4

/-- Method `Server.addMember`. -/
def Server.addMember (s : Server) (c : ClientId) : Server :=
  { s with members := mapInsert c s.members }

/-- Method `Server.removeMember`. -/
def Server.removeMember (s : Server) (c : ClientId) : Server :=
  let s1 :=
    match (s.clientAt c).room with
    | some r => room.removeMember s r c
    | none => s
  { s1 with members := mapDelete c s1.members }

/-- Method `Server.findClientByNick`: the first directory entry, in iteration order, whose
nickname is `nick`; `none` is the nil pointer. -/
def Server.findClientByNick (s : Server) (nick : String) : Option ClientId :=
  s.members.find? (fun c => decide ((s.clientAt c).nick = nick))

/-- Method `Server.nick`. -/
def Server.nick (s : Server) (c : ClientId) (args : List String) : Option Server :=
  if args.length < 1 then
    some (client.msg s c "nick is required. usage: /nick NAME")
  else do
    let previousNick := (s.clientAt c).nick
    let newNick ← args[0]?
    if (s.findClientByNick newNick).isSome then
      some (client.msg s c ("nick " ++ newNick ++ " is already taken"))
    else
      let s1 := setNick s c newNick
      let s2 := client.msg s1 c ("all right, I will call you " ++ (s1.clientAt c).nick)
      match (s2.clientAt c).room with
      | some r =>
        some (room.broadcast s2 r c
          (previousNick ++ " is now known as " ++ (s2.clientAt c).nick))
      | none => some s2

/-- Method `Server.getOrCreateRoom`: the state after the call and the room returned. -/
def Server.getOrCreateRoom (s : Server) (name : String) : Server × RoomId :=
  let name := if !strings.HasPrefix name "#" then "#" ++ name else name
  match s.rooms.lookup name with
  | some r => (s, r)
  | none =>
    ({ s with roomAt := Function.update s.roomAt s.nextRoom ⟨name, []⟩,
              rooms := s.rooms ++ [(name, s.nextRoom)],
              nextRoom := s.nextRoom + 1 }, s.nextRoom)

/-- Method `Server.join`. -/
def Server.join (s : Server) (c : ClientId) (args : List String) : Option Server :=
  if args.length < 1 then
    some (client.msg s c "room name is required. usage: /join ROOM_NAME")
  else do
    let roomName ← args[0]?
    let (s1, r) := s.getOrCreateRoom roomName
    let s2 := client.join s1 c r
    some (client.msg s2 c ("welcome to " ++ (s2.roomAt r).name))

/-- Method `Server.listRooms`. -/
def Server.listRooms (s : Server) (c : ClientId) : Server :=
  client.msg s c ("available rooms: " ++ strings.Join (s.rooms.map Prod.fst) ", ")

/-- Method `Server.msg`. -/
def Server.msg (s : Server) (c : ClientId) (args : List String) : Option Server :=
  let msg := strings.Join args " "
  match (s.clientAt c).room with
  | some r => some (room.broadcast s r c ((s.clientAt c).nick ++ ": " ++ msg))
  | none => some (client.msg s c "you must join a room first.")

/-- Method `Server.msgUser`. -/
def Server.msgUser (s : Server) (c : ClientId) (args : List String) : Option Server :=
  if args.length < 2 then
    some (client.msg s c "message is required, usage: /msg NICK MSG")
  else do
    let target ← args[0]?
    match s.findClientByNick target with
    | none => some (client.msg s c ("user " ++ target ++ " not found"))
    | some receiver =>
      if receiver = c then
        some (client.msg s c "you can't send message to yourself")
      else do
        let words ← sliceFrom args 1
        let msg := strings.Join words " "
        some (client.msg s receiver
          ("private message from " ++ (s.clientAt c).nick ++ ": " ++ msg))

/-- Method `Server.listMembers`. -/
def Server.listMembers (s : Server) (c : ClientId) : Server :=
  client.msg s c
    ("members: " ++ strings.Join (s.members.map (fun m => (s.clientAt m).nick)) ", ")

/-- Method `Server.whois`. -/
def Server.whois (s : Server) (now : Nat) (c : ClientId) (args : List String) :
    Option Server :=
  if args.length < 1 then
    some (client.msg s c "nick is required. usage: /whois NICK")
  else do
    let nick ← args[0]?
    match s.findClientByNick nick with
    | none => some (client.msg s c ("user " ++ nick ++ " not found"))
    | some other => some (client.whois s now c other)

/-- Method `Server.me`. -/
def Server.me (s : Server) (now : Nat) (c : ClientId) : Server :=
  client.whois s now c c

/-- The lines written by `Server.help`, in order. -/
def helpLines : List String :=
  ["available commands:",
   "/nick NAME - set your nickname",
   "/join ROOM - join a room",
   "/rooms - list available rooms",
   "/msg MSG - send a message to the current room",
   "/msg USER MSG - send a private message to a user",
   "/members - list members in the current room",
   "/whois USER - get information about a user",
   "/me - get information about yourself",
   "/help - display this help message",
   "/quit - leave the chat"]

/-- Method `Server.help`. -/
def Server.help (s : Server) (c : ClientId) : Server :=
  helpLines.foldl (fun acc line => client.msg acc c line) s

/-- Method `Server.quit`; the deferred `c.conn.Close()` runs last. -/
def Server.quit (s : Server) (c : ClientId) : Server :=
  let s1 := s.removeMember c
  let s2 := client.msg s1 c "sad to see you go =("
  let c1 : client := { s2.clientAt c with closed := true }
  { s2 with clientAt := Function.update s2.clientAt c c1 }

/-- One iteration of the loop of `Server.handler`: the command `cmd` received from the
channel is executed to completion. -/
def Server.handler (s : Server) (now : Nat) (cmd : command) : Option Server :=
  match cmd.id with
  | .CMD_NICK => s.nick cmd.client cmd.args
  | .CMD_JOIN => s.join cmd.client cmd.args
  | .CMD_ROOMS => some (s.listRooms cmd.client)
  | .CMD_MSG => s.msg cmd.client cmd.args
  | .CMD_MSG_USER => s.msgUser cmd.client cmd.args
  | .CMD_LIST_MEMBERS => some (s.listMembers cmd.client)
  | .CMD_WHOIS => s.whois now cmd.client cmd.args
  | .CMD_ME => some (s.me now cmd.client)
  | .CMD_HELP => some (s.help cmd.client)
  | .CMD_QUIT => some (s.quit cmd.client)

/-- Method `Server.newClient` for a connection whose remote address prints as `remoteAddr`,
accepted at time `now`: the state afterwards and the client returned. -/
def Server.newClient (s : Server) (now : Nat) (remoteAddr : String) :
    Option (Server × ClientId) := do
  let c := s.nextClient
  let c1 : client := ⟨remoteAddr, none, remoteAddr, now, [], false⟩
  let s1 : Server := { s with clientAt := Function.update s.clientAt c c1, nextClient := c + 1 }
  let s2 := s1.addMember c
  let s3 ← s2.join c ["#lobby"]
  some (s3, c)

/-- What a turn of the reader loop does outside its own goroutine: it hands a command to the
dispatcher over the channel `c.commands`, or reports an error on the connection by
`c.err`. -/
inductive event where
  | enqueue (cmd : command)
  | err (c : ClientId) (text : String)
  deriving DecidableEq

/-- The outcome of one turn of the loop of `client.readInput`: the loop goes on after the
listed events, or the method returns. -/
inductive turn where
  | next (evs : List event)
  | stop
  deriving DecidableEq

/-- The bytes of the UTF-8 encoding of a character. -/
def utf8Bytes (ch : Char) : List Nat :=
  let v := ch.toNat
  if v < 0x80 then [v]
  else if v < 0x800 then [0xC0 + v / 0x40, 0x80 + v % 0x40]
  else if v < 0x10000 then [0xE0 + v / 0x1000, 0x80 + v / 0x40 % 0x40, 0x80 + v % 0x40]
  else [0xF0 + v / 0x40000, 0x80 + v / 0x1000 % 0x40, 0x80 + v / 0x40 % 0x40, 0x80 + v % 0x40]

/-- The character that stands for the byte `b` of a character cut in two: `U+F700 + b`. -/
def rawByte (b : Nat) : Char :=
  Char.ofNat (0xF700 + b)

/-- The slice `line[:n]` of the bytes of a text: the characters that end within the first `n`
bytes and, when byte `n` falls inside a character, the bytes of that character before the cut,
each as a `rawByte`. -/
def truncateBytes : Nat → List Char → List Char
  | _, [] => []
  | n, ch :: rest =>
    if ch.utf8Size ≤ n then ch :: truncateBytes (n - ch.utf8Size) rest
    else ((utf8Bytes ch).take n).map rawByte

/-- The function `readLimitedMessage` applied to the result `read` of
`reader.ReadString` (`none` is a read error): of a line longer than `MAX_MSG_BODY` bytes the
first `MAX_MSG_BODY` bytes are kept. -/
def readLimitedMessage (read : Option String) : Option String :=
  match read with
  | none => none
  | some line =>
    if line.utf8ByteSize > MAX_MSG_BODY then some ⟨truncateBytes MAX_MSG_BODY line.data⟩
    else some line

/-- Method `client.quit`: the QUIT command is put on the channel. -/
def client.quit (c : ClientId) : event :=
  .enqueue ⟨.CMD_QUIT, c, []⟩

/-- One turn of the loop of `client.readInput`, `read` being the result of
`reader.ReadString`.  The result `none` is a panic of the index expression `args[0]`. -/
def client.readTurn (c : ClientId) (read : Option String) : Option turn :=
  match readLimitedMessage read with
  | none => some .stop
  | some msg => do
    let msg := strings.Trim msg "\r\n"
    let args := strings.Split msg ' '
    let cmd := strings.TrimSpace (← args[0]?)
    if cmd.data.head? = some '/' then
      if cmd = "/nick" then some (.next [.enqueue ⟨.CMD_NICK, c, args⟩])
      else if cmd = "/join" then some (.next [.enqueue ⟨.CMD_JOIN, c, args⟩])
      else if cmd = "/rooms" then some (.next [.enqueue ⟨.CMD_ROOMS, c, []⟩])
      else if cmd = "/msg" then some (.next [.enqueue ⟨.CMD_MSG_USER, c, args⟩])
      else if cmd = "/members" then some (.next [.enqueue ⟨.CMD_LIST_MEMBERS, c, []⟩])
      else if cmd = "/whois" then some (.next [.enqueue ⟨.CMD_WHOIS, c, args⟩])
      else if cmd = "/me" then some (.next [.enqueue ⟨.CMD_ME, c, []⟩])
      else if cmd = "/help" then some (.next [.enqueue ⟨.CMD_HELP, c, []⟩])
      else if cmd = "/quit" then some .stop
      else some (.next [.err c ("unknown command: " ++ cmd)])
    else some (.next [.enqueue ⟨.CMD_MSG, c, args⟩])

/-- Method `client.readInput` on a connection that delivers the lines `input` (each as
returned by `reader.ReadString`) and then fails to read: the events of the method in order,
the deferred `c.quit()` last. -/
def client.readInput (c : ClientId) : List String → Option (List event)
  | [] => some [client.quit c]
  | line :: rest =>
    match client.readTurn c (some line) with
    | none => none
    | some .stop => some [client.quit c]
    | some (.next evs) => (client.readInput c rest).map (fun tl => evs ++ tl)

/-- The effect of one reader event on the server: the channel is unbuffered, so an enqueued
command is what the dispatcher executes next; an error report is written to the
connection. -/
def Server.apply (s : Server) (now : Nat) : event → Option Server
  | .enqueue cmd => s.handler now cmd
  | .err c text => some (client.err s c text)

/-- The effect of a sequence of reader events. -/
def Server.run (s : Server) (now : Nat) : List event → Option Server
  | [] => some s
  | ev :: evs => (s.apply now ev).bind (fun s1 => s1.run now evs)

/-- Client `c` sends one line `line` (terminator included) and the server works it off: one
turn of the reader loop, then the dispatcher; a turn that leaves the loop runs the deferred
`c.quit()`. -/
def Server.onLine (s : Server) (now : Nat) (c : ClientId) (line : String) : Option Server :=
  match client.readTurn c (some line) with
  | none => none
  | some .stop => s.apply now (client.quit c)
  | some (.next evs) => s.run now evs

/-- The loop of `Server.Run` over the results of `listener.Accept()`, an error being `none`
and a connection being given by its remote address: a failed accept is logged and the loop
goes on, a connection is admitted by `s.newClient(conn)` on the goroutine of `Run` itself.
(The dispatcher `go s.handler()` and the readers `go c.readInput()` are goroutines of their
own; their effect is `Server.handler` and `client.readInput`.) -/
def Server.Run (s : Server) (now : Nat) : List (Option String) → Option Server
  | [] => some s
  | none :: rest => s.Run now rest
  | some remoteAddr :: rest =>
    (s.newClient now remoteAddr).bind (fun p => p.1.Run now rest)

/-- The states of the server reachable from `NewServer`: connections are admitted by
`newClient`, a command of an allocated client is executed by the dispatcher, the reader of an
allocated client reports an error on its connection (`c.err` in `client.readInput`), and, the
iteration order of a Go map being unspecified, the directory and the room table may be
visited in any order. -/
inductive Reachable : Server → Prop where
  | init : Reachable NewServer
  | accept {s s1 : Server} {c : ClientId} (now : Nat) (remoteAddr : String) :
      Reachable s → s.newClient now remoteAddr = some (s1, c) → Reachable s1
  | step {s s1 : Server} (now : Nat) (cmd : command) :
      Reachable s → cmd.client < s.nextClient → s.handler now cmd = some s1 → Reachable s1
  | reorder {s : Server} (order : List ClientId) :
      Reachable s → order.Perm s.members → Reachable { s with members := order }
  | reorderRooms {s : Server} (order : List (String × RoomId)) :
      Reachable s → order.Perm s.rooms → Reachable { s with rooms := order }
  | report {s : Server} (c : ClientId) (text : String) :
      Reachable s → c < s.nextClient → Reachable (client.err s c text)

/-- Invariant (b) for a state: two directory sessions with the same nickname are the same
session. -/
def UniqueNicks (s : Server) : Prop :=
  ∀ c ∈ s.members, ∀ d ∈ s.members, (s.clientAt c).nick = (s.clientAt d).nick → c = d

/-- The lines a broadcast of `msg` over the key list `l` adds to the connection of `d`: one
per occurrence of `d`, none for the sender. -/
def copies (l : List ClientId) (sender d : ClientId) (msg : String) : List String :=
  List.replicate (if sender = d then 0 else l.count d) (msg ++ "\n")

/-- The roster of room `x` once `c` has left its current room. -/
def rosterLeft (s : Server) (c : ClientId) (x : RoomId) : List ClientId :=
  if (s.clientAt c).room = some x then mapDelete c (s.roomAt x).members
  else (s.roomAt x).members

/-- The lines `client.leave` of `c` adds to the connection of `d`. -/
def leftLines (s : Server) (c d : ClientId) : List String :=
  match (s.clientAt c).room with
  | some o => copies (mapDelete c (s.roomAt o).members) c d
      ((s.clientAt c).nick ++ " has left the room")
  | none => []

/-- Two states that agree on the room table, the directory, the rooms and the current room of
every client; nicknames and connections may differ. -/
def SameShape (s s1 : Server) : Prop :=
  s1.rooms = s.rooms ∧ s1.members = s.members ∧ s1.roomAt = s.roomAt ∧
  s1.nextClient = s.nextClient ∧ s1.nextRoom = s.nextRoom ∧
  ∀ d, (s1.clientAt d).room = (s.clientAt d).room

/-- Representation and allocation invariants of the reachable states: the key lists of the
maps have no repetitions, a roster holds only clients whose current room it is, a directory
session is in the roster of its current room, every pointer in use is allocated, and the room
table binds each canonical name once, to a room of that name. -/
structure WellFormed (s : Server) : Prop where
  membersNodup : s.members.Nodup
  rosterNodup : ∀ r : RoomId, (s.roomAt r).members.Nodup
  rosterRoom : ∀ (c : ClientId) (r : RoomId),
    c ∈ (s.roomAt r).members → (s.clientAt c).room = some r
  roomRoster : ∀ c ∈ s.members, ∀ r : RoomId,
    (s.clientAt c).room = some r → c ∈ (s.roomAt r).members
  membersAlloc : ∀ c ∈ s.members, c < s.nextClient
  freshRoom : ∀ c : ClientId, s.nextClient ≤ c → (s.clientAt c).room = none
  roomAlloc : ∀ (c : ClientId) (r : RoomId), (s.clientAt c).room = some r → r < s.nextRoom
  tableAlloc : ∀ (k : String) (r : RoomId), (k, r) ∈ s.rooms → r < s.nextRoom
  tableName : ∀ (k : String) (r : RoomId), (k, r) ∈ s.rooms → (s.roomAt r).name = k
  tableHash : ∀ (k : String) (r : RoomId), (k, r) ∈ s.rooms → strings.HasPrefix k "#" = true
  tableKeys : (s.rooms.map Prod.fst).Nodup

/-- The state after an accepted NICK request of `c` for `name`. -/
def renamed (s : Server) (c : ClientId) (name : String) : Server :=
  let s2 := client.msg (setNick s c name) c ("all right, I will call you " ++ name)
  match (s.clientAt c).room with
  | some r => room.broadcast s2 r c ((s.clientAt c).nick ++ " is now known as " ++ name)
  | none => s2

/-- The state of an execution that did not panic; a panic leaves the initial state. -/
def stateOf (o : Option Server) : Server :=
  o.getD NewServer

/-- One session, admitted from `10.0.0.1:5000`; it is client 0 and sits in the lobby. -/
def oneSession : Server :=
  stateOf ((NewServer.newClient 0 "10.0.0.1:5000").map Prod.fst)

/-- Two sessions in the lobby: client 0 from `10.0.0.1:5000`, client 1 from
`10.0.0.2:5000`. -/
def twoSessions : Server :=
  stateOf ((oneSession.newClient 0 "10.0.0.2:5000").map Prod.fst)

/-- The two sessions after client 1 has joined the room `test`. -/
def splitRooms : Server :=
  stateOf (twoSessions.handler 0 ⟨.CMD_JOIN, 1, ["test"]⟩)

/-- Two admitted connections whose remote address prints the same, `10.0.0.1:5000`: clients 0
and 1.  (With the address `:8888` of `cmd/main.go` the listener is bound to every local address of the
host; a peer that binds one local address and port for two connections, one to each of two of
these addresses, has the same remote address on both.) -/
def sameAddress : Server :=
  stateOf ((oneSession.newClient 0 "10.0.0.1:5000").map Prod.fst)

/-- The scenario of the nickname conflict, through reader and dispatcher: session 0 sends
`/nick alice`, a second connection is admitted and sends `/nick alice` too. -/
def nickScenario : Option Server := do
  let s1 ← oneSession.onLine 0 0 "/nick alice\n"
  let (s2, _) ← s1.newClient 0 "10.0.0.2:5000"
  s2.onLine 0 1 "/nick alice\n"

/-- The round-trip scenario, through reader and dispatcher: session 0 sends `/join test`, a
second connection is admitted, sends `/join test` and then the plain line `hello`. -/
def roundTrip : Option Server := do
  let s1 ← oneSession.onLine 0 0 "/join test\n"
  let (s2, _) ← s1.newClient 0 "10.0.0.2:5000"
  let s3 ← s2.onLine 0 1 "/join test\n"
  s3.onLine 0 1 "hello\n"

/-- Two states with the same shared state: directory, room table, rooms with their rosters,
and the nickname and current room of every client. -/
def SameState (s s1 : Server) : Prop :=
  s1.members = s.members ∧ s1.rooms = s.rooms ∧ s1.roomAt = s.roomAt ∧
  ∀ d, (s1.clientAt d).nick = (s.clientAt d).nick ∧ (s1.clientAt d).room = (s.clientAt d).room

/-- The states that follow `s` while client `c` issues no command and its reader reports
nothing: connections are accepted, commands of other allocated clients are executed, their
readers report errors, and the directory and the room table are visited in any order. -/
inductive LaterWithout (c : ClientId) : Server → Server → Prop where
  | here (s : Server) : LaterWithout c s s
  | accept {s s1 s2 : Server} {d : ClientId} (now : Nat) (remoteAddr : String) :
      LaterWithout c s s1 → s1.newClient now remoteAddr = some (s2, d) → LaterWithout c s s2
  | step {s s1 s2 : Server} (now : Nat) (cmd : command) :
      LaterWithout c s s1 → cmd.client ≠ c → cmd.client < s1.nextClient →
      s1.handler now cmd = some s2 → LaterWithout c s s2
  | reorder {s s1 : Server} (order : List ClientId) :
      LaterWithout c s s1 → order.Perm s1.members →
      LaterWithout c s { s1 with members := order }
  | reorderRooms {s s1 : Server} (order : List (String × RoomId)) :
      LaterWithout c s s1 → order.Perm s1.rooms →
      LaterWithout c s { s1 with rooms := order }
  | report {s s1 : Server} (d : ClientId) (text : String) :
      LaterWithout c s s1 → d ≠ c → d < s1.nextClient →
      LaterWithout c s (client.err s1 d text)

/-- Client `c` is neither in the directory nor in any roster. -/
def Gone (c : ClientId) (s : Server) : Prop :=
  c ∉ s.members ∧ ∀ x : RoomId, c ∉ (s.roomAt x).members

/-- A line of 4097 letters and a line feed. -/
def longLine : String := ⟨List.replicate 4097 'a' ++ ['\n']⟩

/-- The canonical form of a room name in `Server.getOrCreateRoom`. -/
def canonical (name : String) : String :=
  if !strings.HasPrefix name "#" then "#" ++ name else name

end Lib

namespace Main

/-- A `*client` pointer of the root package. -/
abbrev ClientId := Nat

/-- A `*room` pointer of the root package. -/
abbrev RoomId := Nat

/-- The struct `client` of `client.go`. -/
structure client where
  nick : String
  room : Option RoomId
  remoteAddr : String
  written : List String

/-- The struct `room` of the root package, as its uses in `server.go` show it: a name and a
roster `map[net.Addr]*client`. -/
structure room where
  name : String
  members : List ClientId

/-- The struct `server` of `server.go` with the heaps of its pointers. -/
structure server where
  rooms : List (String × RoomId)
  members : List ClientId
  clientAt : ClientId → client
  roomAt : RoomId → room
  nextClient : Nat
  nextRoom : Nat

/-- The function `newServer`. -/
def newServer : server where
  rooms := []
  members := []
  clientAt := fun _ => ⟨"", none, "", []⟩
  roomAt := fun _ => ⟨"", []⟩
  nextClient := 0
  nextRoom := 0

/-- Method `client.msg` of `client.go`: the line is written after the mark `"> "`. -/
def client.msg (s : server) (c : ClientId) (msg : String) : server :=
  let c1 : client := { s.clientAt c with written := (s.clientAt c).written ++ ["> " ++ msg ++ "\n"] }
  { s with clientAt := Function.update s.clientAt c c1 }

/-- Modelled from the spec: the method `room.broadcast` of the root package, whose file is not
among the sources; it "sends `text` to every roster member whose identity differs from
`sender`'s". -/
def room.broadcast (s : server) (r : RoomId) (sender : ClientId) (msg : String) : server :=
  (s.roomAt r).members.foldl
    (fun acc addr => if sender ≠ addr then client.msg acc addr msg else acc) s

/-- Method `server.addMember`. -/
def server.addMember (s : server) (c : ClientId) : server :=
  { s with members := mapInsert c s.members }

/-- Method `server.quitCurrentRoom`; looking the current room up by its name in the room
table and finding nothing is a nil dereference. -/
def server.quitCurrentRoom (s : server) (c : ClientId) : Option server :=
  match (s.clientAt c).room with
  | none => some s
  | some cur =>
    match s.rooms.lookup (s.roomAt cur).name with
    | none => none
    | some oldRoom =>
      let r1 : room := { s.roomAt oldRoom with members := mapDelete c (s.roomAt oldRoom).members }
      let s1 : server := { s with roomAt := Function.update s.roomAt oldRoom r1 }
      some (room.broadcast s1 oldRoom c ((s1.clientAt c).nick ++ " has left the room"))

/-- Method `server.addRoomMember`. -/
def server.addRoomMember (s : server) (r : RoomId) (c : ClientId) : Option server := do
  let r1 : room := { s.roomAt r with members := mapInsert c (s.roomAt r).members }
  let s1 : server := { s with roomAt := Function.update s.roomAt r r1 }
  let s2 ← s1.quitCurrentRoom c
  let c1 : client := { s2.clientAt c with room := some r }
  some { s2 with clientAt := Function.update s2.clientAt c c1 }

/-- The room name as `server.join` rewrites it before the table lookup: `len` counts bytes
and `roomName[0]` is the first byte, which is `'#'` exactly when the first character is. -/
def canonical (roomName : String) : String :=
  if roomName.utf8ByteSize > 1 && roomName.data.head? ≠ some '#' then "#" ++ roomName
  else roomName

/-- Method `server.join`; `args[0]` is the keyword, `args[1]` the room name. -/
def server.join (s : server) (c : ClientId) (args : List String) : Option server :=
  if args.length < 2 then
    some (client.msg s c "room name is required. usage: /join ROOM_NAME")
  else do
    let roomName := canonical (← args[1]?)
    let (s1, r) : server × RoomId :=
      match s.rooms.lookup roomName with
      | some r => (s, r)
      | none =>
        ({ s with roomAt := Function.update s.roomAt s.nextRoom ⟨roomName, []⟩,
                  rooms := s.rooms ++ [(roomName, s.nextRoom)],
                  nextRoom := s.nextRoom + 1 }, s.nextRoom)
    let s2 ← s1.addRoomMember r c
    let s3 := room.broadcast s2 r c ((s2.clientAt c).nick ++ " joined the room")
    some (client.msg s3 c ("welcome to " ++ roomName))

/-- Method `server.newClient` for a connection whose remote address prints as
`remoteAddr`. -/
def server.newClient (s : server) (remoteAddr : String) : Option (server × ClientId) := do
  let c := s.nextClient
  let c1 : client := ⟨remoteAddr, none, remoteAddr, []⟩
  let s1 : server := { s with clientAt := Function.update s.clientAt c c1, nextClient := c + 1 }
  let s2 := s1.addMember c
  let s3 ← s2.join c ["/join", "#lobby"]
  some (s3, c)

/-- The root server after its first session has joined the room it calls `x`. -/
def shortName : Option server := do
  let (s1, c) ← newServer.newClient "10.0.0.1:5000"
  s1.join c ["/join", "x"]

/-- The root server after its first session, which `newClient` put in `#lobby`, has sent
`/join #lobby`. -/
def rejoinLobby : Option server := do
  let (s1, c) ← newServer.newClient "10.0.0.1:5000"
  s1.join c ["/join", "#lobby"]

end Main


/-! ## Key lists of maps -/

theorem mem_mapInsert (a k : Nat) (l : List Nat) : a ∈ mapInsert k l ↔ a = k ∨ a ∈ l := by
  unfold mapInsert
  split
  · constructor
    · intro h; exact Or.inr h
    · rintro (h | h)
      · subst h; assumption
      · exact h
  · simp [or_comm]

theorem mem_mapDelete (a k : Nat) (l : List Nat) : a ∈ mapDelete k l ↔ a ∈ l ∧ a ≠ k := by
  simp [mapDelete]

theorem nodup_mapInsert (k : Nat) (l : List Nat) (h : l.Nodup) : (mapInsert k l).Nodup := by
  unfold mapInsert
  split
  · exact h
  · rw [List.nodup_append]
    refine ⟨h, List.nodup_singleton k, ?_⟩
    intro a ha hk
    simp at hk
    subst hk
    contradiction

theorem nodup_mapDelete (k : Nat) (l : List Nat) (h : l.Nodup) : (mapDelete k l).Nodup :=
  h.filter _

theorem lookup_mem {β : Type} (k : String) (l : List (String × β)) (v : β)
    (h : l.lookup k = some v) : (k, v) ∈ l := by
  induction l with
  | nil => simp at h
  | cons p l ih =>
    obtain ⟨k1, v1⟩ := p
    by_cases hk : k = k1
    · subst hk
      simp [List.lookup] at h
      subst h
      exact List.mem_cons_self _ _
    · have : (k == k1) = false := by simpa using hk
      simp [List.lookup, this] at h
      exact List.mem_cons_of_mem _ (ih h)

theorem lookup_none {β : Type} (k : String) (l : List (String × β))
    (h : l.lookup k = none) : k ∉ l.map Prod.fst := by
  induction l with
  | nil => simp
  | cons p l ih =>
    obtain ⟨k1, v1⟩ := p
    by_cases hk : k = k1
    · subst hk
      simp [List.lookup] at h
    · have : (k == k1) = false := by simpa using hk
      simp only [List.lookup, this] at h
      simp only [List.map_cons, List.mem_cons, not_or]
      exact ⟨hk, ih h⟩

theorem lookup_of_mem {β : Type} (k : String) (l : List (String × β)) (v : β)
    (hn : (l.map Prod.fst).Nodup) (h : (k, v) ∈ l) : l.lookup k = some v := by
  induction l with
  | nil => simp at h
  | cons p l ih =>
    obtain ⟨k1, v1⟩ := p
    simp only [List.map_cons, List.nodup_cons] at hn
    rcases List.mem_cons.1 h with heq | hmem
    · injection heq with h1 h2
      subst h1 h2
      simp [List.lookup]
    · have hk : k ≠ k1 := by
        intro hk
        subst hk
        exact hn.1 (List.mem_map.2 ⟨(k, v), hmem, rfl⟩)
      have : (k == k1) = false := by simpa using hk
      simp [List.lookup, this]
      exact ih hn.2 hmem

/-! ## Splitting, joining and trimming strings -/

theorem splitChars_ne_nil (sep : Char) (l : List Char) : strings.splitChars sep l ≠ [] := by
  cases l with
  | nil => simp [strings.splitChars]
  | cons ch rest =>
    unfold strings.splitChars
    split
    · simp
    · split <;> simp

theorem split_cons (s : String) (sep : Char) :
    ∃ tok rest, strings.Split s sep = tok :: rest := by
  unfold strings.Split
  cases h : strings.splitChars sep s.data with
  | nil => exact absurd h (splitChars_ne_nil sep s.data)
  | cons a l => exact ⟨_, _, rfl⟩

theorem intercalate_go_data (sep : String) (l : List String) (acc : String) :
    (String.intercalate.go acc sep l).data =
      acc.data ++ (l.map (fun a => sep.data ++ a.data)).flatten := by
  induction l generalizing acc with
  | nil => simp [String.intercalate.go]
  | cons a l ih =>
    simp [String.intercalate.go, ih, List.append_assoc]

/-- The pieces of a split, put together again with the separator between them, are the
original list. -/
theorem splitChars_glue (sep : Char) (l : List Char) :
    ∃ t ts, strings.splitChars sep l = t :: ts ∧
      t ++ (ts.map (fun x => sep :: x)).flatten = l := by
  induction l with
  | nil => exact ⟨[], [], rfl, rfl⟩
  | cons ch rest ih =>
    obtain ⟨t, ts, hs, hg⟩ := ih
    unfold strings.splitChars
    by_cases hc : ch = sep
    · rw [if_pos hc, hs]
      refine ⟨[], t :: ts, rfl, ?_⟩
      simp [hg, hc]
    · rw [if_neg hc, hs]
      refine ⟨ch :: t, ts, rfl, ?_⟩
      simp [hg]

/-- Joining with a single space what was split at single spaces gives the string back. -/
theorem join_split (s : String) : strings.Join (strings.Split s ' ') " " = s := by
  obtain ⟨t, ts, hs, hg⟩ := splitChars_glue ' ' s.data
  apply String.ext
  unfold strings.Join strings.Split
  rw [hs]
  simp only [List.map_cons, String.intercalate]
  rw [intercalate_go_data]
  have : (List.map (fun a => (" " : String).data ++ a.data) (List.map String.mk ts)) =
      List.map (fun x => ' ' :: x) ts := by
    rw [List.map_map]
    rfl
  rw [this]
  exact hg

theorem utf8_go_replicate (n : Nat) (rest : List Char) :
    String.utf8ByteSize.go (List.replicate n 'a' ++ rest) = String.utf8ByteSize.go rest + n := by
  induction n with
  | zero => simp
  | succ n ih =>
    have h1 : Char.utf8Size 'a' = 1 := by decide
    rw [List.replicate_succ, List.cons_append]
    show String.utf8ByteSize.go (List.replicate n 'a' ++ rest) + Char.utf8Size 'a' = _
    rw [ih, h1]
    omega

theorem dropWhile_replicate_a (p : Char → Bool) (hp : p 'a' = false) (n : Nat)
    (rest : List Char) :
    (List.replicate (n + 1) 'a' ++ rest).dropWhile p = List.replicate (n + 1) 'a' ++ rest := by
  rw [List.replicate_succ, List.cons_append, List.dropWhile_cons_of_neg (by simp [hp])]

theorem trim_replicate_a (n : Nat) :
    strings.Trim ⟨List.replicate (n + 1) 'a'⟩ "\r\n" = ⟨List.replicate (n + 1) 'a'⟩ := by
  have hp : (fun ch => ("\r\n" : String).data.contains ch) 'a' = false := by decide
  unfold strings.Trim
  congr 1
  have h1 := dropWhile_replicate_a _ hp n []
  simp only [List.append_nil] at h1
  rw [h1, List.reverse_replicate, h1, List.reverse_replicate]

theorem trim_replicate_a_lf (n : Nat) :
    strings.Trim ⟨List.replicate (n + 1) 'a' ++ ['\n']⟩ "\r\n" =
      ⟨List.replicate (n + 1) 'a'⟩ := by
  have hp : (fun ch => ("\r\n" : String).data.contains ch) 'a' = false := by decide
  have hq : (fun ch => ("\r\n" : String).data.contains ch) '\n' = true := by decide
  unfold strings.Trim
  congr 1
  have h1 := dropWhile_replicate_a _ hp n []
  simp only [List.append_nil] at h1
  rw [dropWhile_replicate_a _ hp n ['\n'], List.reverse_append, List.reverse_replicate,
    List.reverse_singleton, List.singleton_append, List.dropWhile_cons_of_pos hq, h1,
    List.reverse_replicate]

theorem splitChars_replicate_a (n : Nat) :
    strings.splitChars ' ' (List.replicate n 'a') = [List.replicate n 'a'] := by
  induction n with
  | zero => rfl
  | succ n ih =>
    have hne : ¬ ('a' = ' ') := by decide
    rw [List.replicate_succ, strings.splitChars, if_neg hne, ih]

theorem trimSpace_replicate_a (n : Nat) :
    strings.TrimSpace ⟨List.replicate (n + 1) 'a'⟩ = ⟨List.replicate (n + 1) 'a'⟩ := by
  have hp : strings.isSpace 'a' = false := by decide
  unfold strings.TrimSpace
  congr 1
  have h1 := dropWhile_replicate_a _ hp n []
  simp only [List.append_nil] at h1
  rw [h1, List.reverse_replicate, h1, List.reverse_replicate]

namespace Lib

/-! ## Writes to a connection and the broadcast loop -/

@[simp] theorem connWrite_rooms (s : Server) (c : ClientId) (b : String) :
    (connWrite s c b).rooms = s.rooms := rfl
@[simp] theorem connWrite_members (s : Server) (c : ClientId) (b : String) :
    (connWrite s c b).members = s.members := rfl
@[simp] theorem connWrite_roomAt (s : Server) (c : ClientId) (b : String) :
    (connWrite s c b).roomAt = s.roomAt := rfl
@[simp] theorem connWrite_nextClient (s : Server) (c : ClientId) (b : String) :
    (connWrite s c b).nextClient = s.nextClient := rfl
@[simp] theorem connWrite_nextRoom (s : Server) (c : ClientId) (b : String) :
    (connWrite s c b).nextRoom = s.nextRoom := rfl

theorem connWrite_clientAt (s : Server) (c d : ClientId) (b : String) :
    (connWrite s c b).clientAt d =
      { s.clientAt d with written := (s.clientAt d).written ++ (if d = c then [b] else []) } := by
  unfold connWrite
  by_cases h : d = c
  · subst h; simp
  · simp [Function.update_apply, h]

/-- Closed form of the loop of `room.broadcast` over a key list. -/
theorem foldl_msg_eq (sender : ClientId) (msg : String) (l : List ClientId) (s : Server) :
    l.foldl (fun acc addr => if sender ≠ addr then client.msg acc addr msg else acc) s =
      { s with clientAt := fun d => { s.clientAt d with
          written := (s.clientAt d).written ++
            List.replicate (if sender = d then 0 else l.count d) (msg ++ "\n") } } := by
  induction l generalizing s with
  | nil => simp
  | cons a l ih =>
    rw [List.foldl_cons, ih]
    by_cases hs : sender = a
    · subst hs
      simp only [ne_eq, not_true_eq_false, if_false]
      congr 1
      funext d
      by_cases hd : sender = d
      · simp [hd]
      · have : ¬ (d = sender) := fun h => hd h.symm
        simp [hd, List.count_cons, this]
    · simp only [ne_eq, hs, not_false_eq_true, if_true]
      congr 1
      funext d
      by_cases hd : sender = d
      · have : ¬ (d = a) := fun h => hs (hd.trans h)
        simp [hd, client.msg, connWrite_clientAt, this]
      · by_cases hda : d = a
        · subst hda
          simp [hd, client.msg, connWrite_clientAt, List.count_cons, List.replicate_succ]
        · have : ¬ (a = d) := fun h => hda h.symm
          simp [hd, client.msg, connWrite_clientAt, List.count_cons, hda, this]

theorem broadcast_eq (s : Server) (r : RoomId) (sender : ClientId) (msg : String) :
    room.broadcast s r sender msg =
      { s with clientAt := fun d => { s.clientAt d with
          written := (s.clientAt d).written ++ copies (s.roomAt r).members sender d msg } } := by
  unfold room.broadcast copies
  exact foldl_msg_eq sender msg _ s

theorem removeMember_eq (s : Server) (r : RoomId) (c : ClientId) :
    room.removeMember s r c =
      { s with
        roomAt := Function.update s.roomAt r
          ⟨(s.roomAt r).name, mapDelete c (s.roomAt r).members⟩,
        clientAt := fun d => { s.clientAt d with
          written := (s.clientAt d).written ++
            copies (mapDelete c (s.roomAt r).members) c d
              ((s.clientAt c).nick ++ " has left the room") } } := by
  unfold room.removeMember
  simp [broadcast_eq]

theorem addMember_eq (s : Server) (r : RoomId) (c : ClientId) :
    room.addMember s r c =
      { s with
        roomAt := Function.update s.roomAt r
          ⟨(s.roomAt r).name, mapInsert c (s.roomAt r).members⟩,
        clientAt := fun d => { s.clientAt d with
          written := (s.clientAt d).written ++
            copies (mapInsert c (s.roomAt r).members) c d
              ((s.clientAt c).nick ++ " has joined the room") } } := by
  unfold room.addMember
  simp [broadcast_eq]

/-! ## Leaving and joining a room, field by field -/

theorem leave_spec (s : Server) (c : ClientId) :
    (client.leave s c).rooms = s.rooms ∧ (client.leave s c).members = s.members ∧
    (client.leave s c).nextClient = s.nextClient ∧ (client.leave s c).nextRoom = s.nextRoom ∧
    (∀ x, ((client.leave s c).roomAt x).name = (s.roomAt x).name) ∧
    (∀ x, ((client.leave s c).roomAt x).members = rosterLeft s c x) ∧
    (∀ d, ((client.leave s c).clientAt d).nick = (s.clientAt d).nick) ∧
    (∀ d, ((client.leave s c).clientAt d).remoteAddr = (s.clientAt d).remoteAddr) ∧
    (∀ d, ((client.leave s c).clientAt d).joined = (s.clientAt d).joined) ∧
    (∀ d, ((client.leave s c).clientAt d).closed = (s.clientAt d).closed) ∧
    (∀ d, ((client.leave s c).clientAt d).room = if d = c then none else (s.clientAt d).room) ∧
    (∀ d, ((client.leave s c).clientAt d).written = (s.clientAt d).written ++ leftLines s c d) := by
  unfold client.leave rosterLeft leftLines
  cases hroom : (s.clientAt c).room with
  | none =>
    simp
    intro d
    split
    · subst_vars; simp [hroom]
    · rfl
  | some o =>
    simp only [removeMember_eq, setRoom]
    refine ⟨trivial, trivial, trivial, trivial, ?_, ?_, ?_, ?_, ?_, ?_, ?_, ?_⟩
    · intro x; by_cases hx : x = o <;> simp [Function.update_apply, hx]
    · intro x
      by_cases hx : x = o
      · subst hx; simp [Function.update_apply]
      · have : ¬ (o = x) := fun h => hx h.symm
        simp [Function.update_apply, hx, this]
    all_goals
      intro d
      by_cases hd : d = c <;> simp [Function.update_apply, hd]

theorem join_spec (s : Server) (c : ClientId) (r : RoomId) :
    (client.join s c r).rooms = s.rooms ∧ (client.join s c r).members = s.members ∧
    (client.join s c r).nextClient = s.nextClient ∧
    (client.join s c r).nextRoom = s.nextRoom ∧
    (∀ x, ((client.join s c r).roomAt x).name = (s.roomAt x).name) ∧
    (∀ x, ((client.join s c r).roomAt x).members =
      if x = r then mapInsert c (rosterLeft s c x) else rosterLeft s c x) ∧
    (∀ d, ((client.join s c r).clientAt d).nick = (s.clientAt d).nick) ∧
    (∀ d, ((client.join s c r).clientAt d).remoteAddr = (s.clientAt d).remoteAddr) ∧
    (∀ d, ((client.join s c r).clientAt d).joined = (s.clientAt d).joined) ∧
    (∀ d, ((client.join s c r).clientAt d).closed = (s.clientAt d).closed) ∧
    (∀ d, ((client.join s c r).clientAt d).room =
      if d = c then some r else (s.clientAt d).room) ∧
    (∀ d, ((client.join s c r).clientAt d).written =
      (s.clientAt d).written ++ leftLines s c d ++
        copies (mapInsert c (rosterLeft s c r)) c d
          ((s.clientAt c).nick ++ " has joined the room")) := by
  obtain ⟨h1, h2, h3, h4, h5, h6, h7, h8, h9, h10, h11, h12⟩ := leave_spec s c
  unfold client.join
  simp only [addMember_eq, setRoom]
  refine ⟨h1, h2, h3, h4, ?_, ?_, ?_, ?_, ?_, ?_, ?_, ?_⟩
  · intro x; by_cases hx : x = r <;> simp [Function.update_apply, hx, h5]
  · intro x; by_cases hx : x = r <;> simp [Function.update_apply, hx, h6]
  all_goals
    intro d
    by_cases hd : d = c <;> simp [Function.update_apply, hd, h6, h7, h8, h9, h10, h11, h12]

/-! ## The invariant is kept by `client.join` -/

theorem nodup_rosterLeft {s : Server} (h : WellFormed s) (c : ClientId) (x : RoomId) :
    (rosterLeft s c x).Nodup := by
  unfold rosterLeft
  split
  · exact nodup_mapDelete _ _ (h.rosterNodup x)
  · exact h.rosterNodup x

theorem mem_rosterLeft {s : Server} (h : WellFormed s) (c d : ClientId) (x : RoomId) :
    d ∈ rosterLeft s c x ↔ d ∈ (s.roomAt x).members ∧ d ≠ c := by
  unfold rosterLeft
  split
  · exact mem_mapDelete _ _ _
  · rename_i hx
    constructor
    · intro hd
      refine ⟨hd, ?_⟩
      intro hdc
      subst hdc
      exact hx (h.rosterRoom _ _ hd)
    · exact fun hd => hd.1

theorem wf_join {s : Server} (h : WellFormed s) {c : ClientId} {r : RoomId}
    (hc : c < s.nextClient) (hr : r < s.nextRoom) : WellFormed (client.join s c r) := by
  obtain ⟨h1, h2, h3, h4, h5, h6, -, -, -, -, h11, -⟩ := join_spec s c r
  have hmem : ∀ d x, d ∈ ((client.join s c r).roomAt x).members ↔
      (d = c ∧ x = r) ∨ (d ≠ c ∧ d ∈ (s.roomAt x).members) := by
    intro d x
    rw [h6]
    split
    · rename_i hx
      rw [mem_mapInsert, mem_rosterLeft h]
      by_cases hd : d = c <;> simp [hd, hx]
    · rename_i hx
      rw [mem_rosterLeft h]
      by_cases hd : d = c <;> simp [hd, hx]
  constructor
  · rw [h2]; exact h.membersNodup
  · intro x
    rw [h6]
    split
    · exact nodup_mapInsert _ _ (nodup_rosterLeft h c x)
    · exact nodup_rosterLeft h c x
  · intro d x hd
    rw [h11]
    rcases (hmem d x).1 hd with ⟨hdc, hx⟩ | ⟨hdc, hd⟩
    · simp [hdc, hx]
    · simp [hdc, h.rosterRoom d x hd]
  · intro d hd x hx
    rw [h2] at hd
    rw [h11] at hx
    rw [hmem]
    by_cases hdc : d = c
    · left
      simp [hdc] at hx
      exact ⟨hdc, hx.symm⟩
    · right
      simp [hdc] at hx
      exact ⟨hdc, h.roomRoster d hd x hx⟩
  · intro d hd
    rw [h2] at hd; rw [h3]
    exact h.membersAlloc d hd
  · intro d hd
    rw [h3] at hd
    have hdc : d ≠ c := by
      intro hdc
      subst hdc
      exact absurd hc (Nat.not_lt.mpr hd)
    rw [h11]
    simp [hdc, h.freshRoom d hd]
  · intro d x hx
    rw [h11] at hx
    rw [h4]
    by_cases hdc : d = c
    · simp [hdc] at hx; exact hx ▸ hr
    · simp [hdc] at hx; exact h.roomAlloc d x hx
  · intro k x hk
    rw [h1] at hk; rw [h4]; exact h.tableAlloc k x hk
  · intro k x hk
    rw [h1] at hk; rw [h5]; exact h.tableName k x hk
  · intro k x hk
    rw [h1] at hk; exact h.tableHash k x hk
  · rw [h1]; exact h.tableKeys

/-! ## Canonical room names and the room table -/

theorem canonical_hash (name : String) : strings.HasPrefix (canonical name) "#" = true := by
  unfold canonical
  by_cases h : strings.HasPrefix name "#" = true
  · simp [h]
  · simp [h]
    simp [strings.HasPrefix, List.isPrefixOf]

theorem canonical_of_hash (name : String) (h : strings.HasPrefix name "#" = true) :
    canonical name = name := by
  simp [canonical, h]

theorem canonical_idem (name : String) : canonical (canonical name) = canonical name :=
  canonical_of_hash _ (canonical_hash name)

theorem getOrCreateRoom_eq (s : Server) (name : String) :
    s.getOrCreateRoom name =
      match s.rooms.lookup (canonical name) with
      | some r => (s, r)
      | none =>
        ({ s with roomAt := Function.update s.roomAt s.nextRoom ⟨canonical name, []⟩,
                  rooms := s.rooms ++ [(canonical name, s.nextRoom)],
                  nextRoom := s.nextRoom + 1 }, s.nextRoom) := rfl

theorem roster_fresh {s : Server} (h : WellFormed s) (r : RoomId) (hr : s.nextRoom ≤ r) :
    (s.roomAt r).members = [] := by
  apply List.eq_nil_iff_forall_not_mem.2
  intro c hc
  have := h.roomAlloc c r (h.rosterRoom c r hc)
  exact absurd this (Nat.not_lt.mpr hr)

theorem getOrCreateRoom_spec {s : Server} (h : WellFormed s) (name : String) :
    WellFormed (s.getOrCreateRoom name).1 ∧
    (s.getOrCreateRoom name).2 < (s.getOrCreateRoom name).1.nextRoom ∧
    (canonical name, (s.getOrCreateRoom name).2) ∈ (s.getOrCreateRoom name).1.rooms ∧
    (s.getOrCreateRoom name).1.members = s.members ∧
    (s.getOrCreateRoom name).1.clientAt = s.clientAt ∧
    (s.getOrCreateRoom name).1.nextClient = s.nextClient ∧
    (∀ x, ((s.getOrCreateRoom name).1.roomAt x).members = (s.roomAt x).members) ∧
    (∀ x, x < s.nextRoom → ((s.getOrCreateRoom name).1.roomAt x).name = (s.roomAt x).name) ∧
    (∀ p, p ∈ s.rooms → p ∈ (s.getOrCreateRoom name).1.rooms) := by
  rw [getOrCreateRoom_eq]
  cases hl : s.rooms.lookup (canonical name) with
  | some r =>
    have hm := lookup_mem _ _ _ hl
    exact ⟨h, h.tableAlloc _ _ hm, hm, rfl, rfl, rfl, fun _ => rfl, fun _ _ => rfl,
      fun _ hp => hp⟩
  | none =>
    have hk := lookup_none _ _ hl
    have hfresh := roster_fresh h s.nextRoom (Nat.le_refl _)
    refine ⟨?_, ?_, ?_, rfl, rfl, rfl, ?_, ?_, ?_⟩
    · constructor
      · exact h.membersNodup
      · intro x
        by_cases hx : x = s.nextRoom
        · subst hx; simp
        · simpa [Function.update_apply, hx] using h.rosterNodup x
      · intro c x hc
        by_cases hx : x = s.nextRoom
        · subst hx; simp at hc
        · simp [Function.update_apply, hx] at hc
          exact h.rosterRoom c x hc
      · intro c hc x hx
        have hlt := h.roomAlloc c x hx
        have hne : x ≠ s.nextRoom := Nat.ne_of_lt hlt
        simpa [Function.update_apply, hne] using h.roomRoster c hc x hx
      · exact h.membersAlloc
      · exact h.freshRoom
      · intro c x hx
        exact Nat.lt_succ_of_lt (h.roomAlloc c x hx)
      · intro k x hkx
        simp only [List.mem_append, List.mem_singleton, Prod.mk.injEq] at hkx
        rcases hkx with hkx | ⟨-, rfl⟩
        · exact Nat.lt_succ_of_lt (h.tableAlloc k x hkx)
        · exact Nat.lt_succ_self _
      · intro k x hkx
        simp only [List.mem_append, List.mem_singleton, Prod.mk.injEq] at hkx
        rcases hkx with hkx | ⟨rfl, rfl⟩
        · have hne : x ≠ s.nextRoom := Nat.ne_of_lt (h.tableAlloc k x hkx)
          simpa [Function.update_apply, hne] using h.tableName k x hkx
        · simp
      · intro k x hkx
        simp only [List.mem_append, List.mem_singleton, Prod.mk.injEq] at hkx
        rcases hkx with hkx | ⟨rfl, -⟩
        · exact h.tableHash k x hkx
        · exact canonical_hash name
      · simp only [List.map_append, List.map_cons, List.map_nil]
        rw [List.nodup_append]
        refine ⟨h.tableKeys, List.nodup_singleton _, ?_⟩
        intro a ha ha2
        simp at ha2
        subst ha2
        exact hk ha
    · exact Nat.lt_succ_self _
    · simp
    · intro x
      by_cases hx : x = s.nextRoom
      · subst hx; simp [hfresh]
      · simp [Function.update_apply, hx]
    · intro x hx
      have hne : x ≠ s.nextRoom := Nat.ne_of_lt hx
      simp [Function.update_apply, hne]
    · intro p hp
      simp [hp]

/-! ## Handlers that only write to connections or rename -/

theorem SameShape.refl (s : Server) : SameShape s s :=
  ⟨rfl, rfl, rfl, rfl, rfl, fun _ => rfl⟩

theorem SameShape.trans {s s1 s2 : Server} (h1 : SameShape s s1) (h2 : SameShape s1 s2) :
    SameShape s s2 := by
  obtain ⟨a1, a2, a3, a4, a5, a6⟩ := h1
  obtain ⟨b1, b2, b3, b4, b5, b6⟩ := h2
  exact ⟨b1.trans a1, b2.trans a2, b3.trans a3, b4.trans a4, b5.trans a5,
    fun d => (b6 d).trans (a6 d)⟩

theorem WellFormed.of_sameShape {s s1 : Server} (h : WellFormed s) (hs : SameShape s s1) :
    WellFormed s1 := by
  obtain ⟨a1, a2, a3, a4, a5, a6⟩ := hs
  constructor
  · rw [a2]; exact h.membersNodup
  · rw [a3]; exact h.rosterNodup
  · intro c r; rw [a3, a6]; exact h.rosterRoom c r
  · intro c hc r; rw [a3, a6]; rw [a2] at hc; exact h.roomRoster c hc r
  · intro c hc; rw [a4]; rw [a2] at hc; exact h.membersAlloc c hc
  · intro c hc; rw [a6]; rw [a4] at hc; exact h.freshRoom c hc
  · intro c r; rw [a6, a5]; exact h.roomAlloc c r
  · intro k r; rw [a1, a5]; exact h.tableAlloc k r
  · intro k r; rw [a1, a3]; exact h.tableName k r
  · intro k r; rw [a1]; exact h.tableHash k r
  · rw [a1]; exact h.tableKeys

theorem sameShape_connWrite (s : Server) (c : ClientId) (b : String) :
    SameShape s (connWrite s c b) :=
  ⟨rfl, rfl, rfl, rfl, rfl, fun d => by rw [connWrite_clientAt]⟩

theorem sameShape_msg (s : Server) (c : ClientId) (m : String) :
    SameShape s (client.msg s c m) :=
  sameShape_connWrite s c _

theorem sameShape_broadcast (s : Server) (r : RoomId) (c : ClientId) (m : String) :
    SameShape s (room.broadcast s r c m) := by
  rw [broadcast_eq]
  exact ⟨rfl, rfl, rfl, rfl, rfl, fun _ => rfl⟩

@[simp] theorem msg_room (s : Server) (c d : ClientId) (m : String) :
    ((client.msg s c m).clientAt d).room = (s.clientAt d).room := by
  simp [client.msg, connWrite_clientAt]

@[simp] theorem msg_nick (s : Server) (c d : ClientId) (m : String) :
    ((client.msg s c m).clientAt d).nick = (s.clientAt d).nick := by
  simp [client.msg, connWrite_clientAt]

@[simp] theorem msg_written (s : Server) (c d : ClientId) (m : String) :
    ((client.msg s c m).clientAt d).written =
      (s.clientAt d).written ++ (if d = c then [m ++ "\n"] else []) := by
  simp [client.msg, connWrite_clientAt]

@[simp] theorem msg_rooms (s : Server) (c : ClientId) (m : String) :
    (client.msg s c m).rooms = s.rooms := rfl
@[simp] theorem msg_members (s : Server) (c : ClientId) (m : String) :
    (client.msg s c m).members = s.members := rfl
@[simp] theorem msg_roomAt (s : Server) (c : ClientId) (m : String) :
    (client.msg s c m).roomAt = s.roomAt := rfl
@[simp] theorem msg_nextClient (s : Server) (c : ClientId) (m : String) :
    (client.msg s c m).nextClient = s.nextClient := rfl
@[simp] theorem msg_nextRoom (s : Server) (c : ClientId) (m : String) :
    (client.msg s c m).nextRoom = s.nextRoom := rfl

@[simp] theorem setNick_room (s : Server) (c d : ClientId) (n : String) :
    ((setNick s c n).clientAt d).room = (s.clientAt d).room := by
  unfold setNick
  by_cases hd : d = c
  · subst hd; simp
  · simp [Function.update_apply, hd]

@[simp] theorem setNick_written (s : Server) (c d : ClientId) (n : String) :
    ((setNick s c n).clientAt d).written = (s.clientAt d).written := by
  unfold setNick
  by_cases hd : d = c
  · subst hd; simp
  · simp [Function.update_apply, hd]

@[simp] theorem setNick_nick (s : Server) (c d : ClientId) (n : String) :
    ((setNick s c n).clientAt d).nick = if d = c then n else (s.clientAt d).nick := by
  unfold setNick
  by_cases hd : d = c
  · subst hd; simp
  · simp [Function.update_apply, hd]

@[simp] theorem setNick_rooms (s : Server) (c : ClientId) (n : String) :
    (setNick s c n).rooms = s.rooms := rfl
@[simp] theorem setNick_members (s : Server) (c : ClientId) (n : String) :
    (setNick s c n).members = s.members := rfl
@[simp] theorem setNick_roomAt (s : Server) (c : ClientId) (n : String) :
    (setNick s c n).roomAt = s.roomAt := rfl
@[simp] theorem setNick_nextClient (s : Server) (c : ClientId) (n : String) :
    (setNick s c n).nextClient = s.nextClient := rfl
@[simp] theorem setNick_nextRoom (s : Server) (c : ClientId) (n : String) :
    (setNick s c n).nextRoom = s.nextRoom := rfl

theorem nick_nil (s : Server) (c : ClientId) :
    s.nick c [] = some (client.msg s c "nick is required. usage: /nick NAME") := rfl

theorem nick_cons (s : Server) (c : ClientId) (newNick : String) (rest : List String) :
    s.nick c (newNick :: rest) =
      if (s.findClientByNick newNick).isSome then
        some (client.msg s c ("nick " ++ newNick ++ " is already taken"))
      else
        let s2 := client.msg (setNick s c newNick) c ("all right, I will call you " ++ newNick)
        match (s.clientAt c).room with
        | some r =>
          some (room.broadcast s2 r c
            ((s.clientAt c).nick ++ " is now known as " ++ newNick))
        | none => some s2 := by
  have hlen : ¬ ((newNick :: rest).length < 1) := by simp
  unfold Server.nick
  rw [if_neg hlen]
  simp

theorem sameShape_setNick (s : Server) (c : ClientId) (n : String) :
    SameShape s (setNick s c n) :=
  ⟨rfl, rfl, rfl, rfl, rfl, fun d => setNick_room s c d n⟩

theorem sameShape_nick {s s1 : Server} {c : ClientId} {args : List String}
    (h : s.nick c args = some s1) : SameShape s s1 := by
  cases args with
  | nil =>
    rw [nick_nil] at h
    injection h with h
    subst h
    exact sameShape_msg _ _ _
  | cons a rest =>
    rw [nick_cons] at h
    split at h
    · injection h with h
      subst h
      exact sameShape_msg _ _ _
    · have h2 := (sameShape_setNick s c a).trans
        (sameShape_msg (setNick s c a) c ("all right, I will call you " ++ a))
      simp only at h
      split at h
      · injection h with h
        subst h
        exact h2.trans (sameShape_broadcast _ _ _ _)
      · injection h with h
        subst h
        exact h2

theorem sameShape_msgH {s s1 : Server} {c : ClientId} {args : List String}
    (h : s.msg c args = some s1) : SameShape s s1 := by
  unfold Server.msg at h
  simp only at h
  split at h
  · injection h with h
    subst h
    exact sameShape_broadcast _ _ _ _
  · injection h with h
    subst h
    exact sameShape_msg _ _ _

theorem msgUser_short (s : Server) (c : ClientId) (args : List String) (h : args.length < 2) :
    s.msgUser c args = some (client.msg s c "message is required, usage: /msg NICK MSG") := by
  unfold Server.msgUser
  rw [if_pos h]

theorem msgUser_cons (s : Server) (c : ClientId) (target word : String) (rest : List String) :
    s.msgUser c (target :: word :: rest) =
      match s.findClientByNick target with
      | none => some (client.msg s c ("user " ++ target ++ " not found"))
      | some receiver =>
        if receiver = c then some (client.msg s c "you can't send message to yourself")
        else some (client.msg s receiver
          ("private message from " ++ (s.clientAt c).nick ++ ": " ++
            strings.Join (word :: rest) " ")) := by
  have hlen : ¬ ((target :: word :: rest).length < 2) := by simp
  unfold Server.msgUser
  rw [if_neg hlen]
  simp [sliceFrom]

theorem sameShape_msgUser {s s1 : Server} {c : ClientId} {args : List String}
    (h : s.msgUser c args = some s1) : SameShape s s1 := by
  by_cases hlen : args.length < 2
  · rw [msgUser_short s c args hlen] at h
    injection h with h
    subst h
    exact sameShape_msg _ _ _
  · match args, hlen with
    | target :: word :: rest, _ =>
      rw [msgUser_cons] at h
      split at h
      · injection h with h
        subst h
        exact sameShape_msg _ _ _
      · split at h <;>
        · injection h with h
          subst h
          exact sameShape_msg _ _ _
    | [], hlen => simp at hlen
    | [_], hlen => simp at hlen

theorem sameShape_whoisC (s : Server) (now : Nat) (c other : ClientId) :
    SameShape s (client.whois s now c other) := by
  unfold client.whois
  simp only
  have h4 := (((sameShape_msg s c ("nick: " ++ (s.clientAt other).nick)).trans
    (sameShape_msg _ c ("addr: " ++ (s.clientAt other).remoteAddr))).trans
    (sameShape_msg _ c ("joined: " ++ timeString (s.clientAt other).joined))).trans
    (sameShape_msg _ c ("since: " ++ timeString (now - (s.clientAt other).joined)))
  split
  · exact h4.trans (sameShape_msg _ _ _)
  · exact h4

theorem whois_nil (s : Server) (now : Nat) (c : ClientId) :
    s.whois now c [] = some (client.msg s c "nick is required. usage: /whois NICK") := rfl

theorem whois_cons (s : Server) (now : Nat) (c : ClientId) (nick : String)
    (rest : List String) :
    s.whois now c (nick :: rest) =
      match s.findClientByNick nick with
      | none => some (client.msg s c ("user " ++ nick ++ " not found"))
      | some other => some (client.whois s now c other) := by
  have hlen : ¬ ((nick :: rest).length < 1) := by simp
  unfold Server.whois
  rw [if_neg hlen]
  simp

theorem sameShape_whois {s s1 : Server} {now : Nat} {c : ClientId} {args : List String}
    (h : s.whois now c args = some s1) : SameShape s s1 := by
  cases args with
  | nil =>
    rw [whois_nil] at h
    injection h with h
    subst h
    exact sameShape_msg _ _ _
  | cons a rest =>
    rw [whois_cons] at h
    split at h
    · injection h with h
      subst h
      exact sameShape_msg _ _ _
    · injection h with h
      subst h
      exact sameShape_whoisC _ _ _ _

theorem sameShape_foldl_msg (c : ClientId) (lines : List String) (s : Server) :
    SameShape s (lines.foldl (fun acc line => client.msg acc c line) s) := by
  induction lines generalizing s with
  | nil => exact SameShape.refl s
  | cons a l ih => exact (sameShape_msg s c a).trans (ih _)

theorem sameShape_help (s : Server) (c : ClientId) : SameShape s (s.help c) :=
  sameShape_foldl_msg c helpLines s

/-! ## The invariant holds in every reachable state -/

theorem join_nil (s : Server) (c : ClientId) :
    s.join c [] = some (client.msg s c "room name is required. usage: /join ROOM_NAME") := rfl

theorem join_cons (s : Server) (c : ClientId) (roomName : String) (rest : List String) :
    s.join c (roomName :: rest) =
      some (client.msg
        (client.join (s.getOrCreateRoom roomName).1 c (s.getOrCreateRoom roomName).2) c
        ("welcome to " ++
          ((s.getOrCreateRoom roomName).1.roomAt (s.getOrCreateRoom roomName).2).name)) := by
  have hlen : ¬ ((roomName :: rest).length < 1) := by simp
  unfold Server.join
  rw [if_neg hlen]
  simp [(join_spec _ _ _).2.2.2.2.1]

theorem wf_joinH {s s1 : Server} (h : WellFormed s) {c : ClientId} (hc : c < s.nextClient)
    {args : List String} (hj : s.join c args = some s1) : WellFormed s1 := by
  cases args with
  | nil =>
    rw [join_nil] at hj
    injection hj with hj
    subst hj
    exact h.of_sameShape (sameShape_msg _ _ _)
  | cons a rest =>
    rw [join_cons] at hj
    injection hj with hj
    subst hj
    obtain ⟨g1, g2, -, -, -, g6, -, -, -⟩ := getOrCreateRoom_spec h a
    exact (wf_join g1 (g6 ▸ hc) g2).of_sameShape (sameShape_msg _ _ _)

theorem joinH_frame {s s1 : Server} {c : ClientId} {args : List String}
    (hj : s.join c args = some s1) :
    s1.nextClient = s.nextClient ∧ s1.members = s.members := by
  cases args with
  | nil =>
    rw [join_nil] at hj
    injection hj with hj
    subst hj
    exact ⟨rfl, rfl⟩
  | cons a rest =>
    rw [join_cons] at hj
    injection hj with hj
    subst hj
    obtain ⟨-, h2, h3, -⟩ := join_spec (s.getOrCreateRoom a).1 c (s.getOrCreateRoom a).2
    simp only [msg_nextClient, msg_members, h2, h3]
    rw [getOrCreateRoom_eq]
    split <;> exact ⟨rfl, rfl⟩

theorem wf_init : WellFormed NewServer := by
  constructor <;> simp [NewServer]

theorem wf_beforeLobby {s : Server} (h : WellFormed s) (now : Nat) (addr : String) :
    WellFormed (Server.addMember ⟨s.rooms, s.members,
      Function.update s.clientAt s.nextClient ⟨addr, none, addr, now, [], false⟩,
      s.roomAt, s.nextClient + 1, s.nextRoom⟩ s.nextClient) := by
  have hroom : ∀ d, (Function.update s.clientAt s.nextClient
      ⟨addr, none, addr, now, [], false⟩ d).room = (s.clientAt d).room := by
    intro d
    by_cases hd : d = s.nextClient
    · subst hd; simp [h.freshRoom _ (Nat.le_refl _)]
    · simp [Function.update_apply, hd]
  constructor
  · exact nodup_mapInsert _ _ h.membersNodup
  · exact h.rosterNodup
  · intro d r hd
    simp only [Server.addMember] at hd ⊢
    rw [hroom]
    exact h.rosterRoom d r hd
  · intro d hd r hr
    simp only [Server.addMember] at hd hr ⊢
    rw [hroom] at hr
    rw [mem_mapInsert] at hd
    rcases hd with hd | hd
    · subst hd
      rw [h.freshRoom _ (Nat.le_refl _)] at hr
      cases hr
    · exact h.roomRoster d hd r hr
  · intro d hd
    simp only [Server.addMember] at hd ⊢
    rw [mem_mapInsert] at hd
    rcases hd with hd | hd
    · subst hd; exact Nat.lt_succ_self _
    · exact Nat.lt_succ_of_lt (h.membersAlloc d hd)
  · intro d hd
    simp only [Server.addMember] at hd ⊢
    rw [hroom]
    exact h.freshRoom d (Nat.le_of_succ_le hd)
  · intro d r hr
    simp only [Server.addMember] at hr ⊢
    rw [hroom] at hr
    exact h.roomAlloc d r hr
  · exact h.tableAlloc
  · exact h.tableName
  · exact h.tableHash
  · exact h.tableKeys

theorem wf_newClient {s s1 : Server} (h : WellFormed s) {now : Nat} {addr : String}
    {c : ClientId} (hn : s.newClient now addr = some (s1, c)) :
    WellFormed s1 ∧ c = s.nextClient ∧ s1.nextClient = s.nextClient + 1 := by
  unfold Server.newClient at hn
  simp only [Option.bind_eq_bind, Option.bind_eq_some] at hn
  obtain ⟨s3, hj, heq⟩ := hn
  injection heq with heq
  injection heq with e1 e2
  subst e1 e2
  have hnot : s.nextClient ∉ s.members := fun hm =>
    Nat.lt_irrefl _ (h.membersAlloc _ hm)
  have hwf := wf_beforeLobby h now addr
  exact ⟨wf_joinH hwf (Nat.lt_succ_self _) hj, rfl, (joinH_frame hj).1⟩

theorem quit_spec (s : Server) (c : ClientId) :
    (s.quit c).rooms = s.rooms ∧ (s.quit c).members = mapDelete c s.members ∧
    (s.quit c).nextClient = s.nextClient ∧ (s.quit c).nextRoom = s.nextRoom ∧
    (∀ x, ((s.quit c).roomAt x).name = (s.roomAt x).name) ∧
    (∀ x, ((s.quit c).roomAt x).members = rosterLeft s c x) ∧
    (∀ d, ((s.quit c).clientAt d).nick = (s.clientAt d).nick) ∧
    (∀ d, ((s.quit c).clientAt d).room = (s.clientAt d).room) ∧
    (∀ d, ((s.quit c).clientAt d).closed = if d = c then true else (s.clientAt d).closed) ∧
    (∀ d, ((s.quit c).clientAt d).written =
      (s.clientAt d).written ++ leftLines s c d ++
        if d = c then ["sad to see you go =(" ++ "\n"] else []) := by
  unfold Server.quit Server.removeMember rosterLeft leftLines
  cases hroom : (s.clientAt c).room with
  | none =>
    simp only [client.msg, connWrite]
    refine ⟨trivial, trivial, trivial, trivial, ?_, ?_, ?_, ?_, ?_, ?_⟩
    · intro x; trivial
    · intro x; simp
    all_goals
      intro d
      by_cases hd : d = c <;> simp [Function.update_apply, hd]
  | some o =>
    simp only [removeMember_eq, client.msg, connWrite]
    refine ⟨trivial, trivial, trivial, trivial, ?_, ?_, ?_, ?_, ?_, ?_⟩
    · intro x; by_cases hx : x = o <;> simp [Function.update_apply, hx]
    · intro x
      by_cases hx : x = o
      · subst hx; simp [Function.update_apply]
      · have : ¬ (o = x) := fun h => hx h.symm
        simp [Function.update_apply, hx, this]
    all_goals
      intro d
      by_cases hd : d = c <;> simp [Function.update_apply, hd]

theorem wf_quit {s : Server} (h : WellFormed s) (c : ClientId) : WellFormed (s.quit c) := by
  obtain ⟨h1, h2, h3, h4, h5, h6, -, h8, -, -⟩ := quit_spec s c
  constructor
  · rw [h2]; exact nodup_mapDelete _ _ h.membersNodup
  · intro x; rw [h6]; exact nodup_rosterLeft h c x
  · intro d x hd
    rw [h6, mem_rosterLeft h] at hd
    rw [h8]
    exact h.rosterRoom d x hd.1
  · intro d hd x hx
    rw [h2, mem_mapDelete] at hd
    rw [h8] at hx
    rw [h6, mem_rosterLeft h]
    exact ⟨h.roomRoster d hd.1 x hx, hd.2⟩
  · intro d hd
    rw [h2, mem_mapDelete] at hd
    rw [h3]
    exact h.membersAlloc d hd.1
  · intro d hd
    rw [h3] at hd
    rw [h8]
    exact h.freshRoom d hd
  · intro d x hx
    rw [h8] at hx
    rw [h4]
    exact h.roomAlloc d x hx
  · intro k x hk
    rw [h1] at hk; rw [h4]; exact h.tableAlloc k x hk
  · intro k x hk
    rw [h1] at hk; rw [h5]; exact h.tableName k x hk
  · intro k x hk
    rw [h1] at hk; exact h.tableHash k x hk
  · rw [h1]; exact h.tableKeys

theorem wf_handler {s s1 : Server} (h : WellFormed s) {now : Nat} {cmd : command}
    (hc : cmd.client < s.nextClient) (hs : s.handler now cmd = some s1) : WellFormed s1 := by
  unfold Server.handler at hs
  split at hs
  · exact h.of_sameShape (sameShape_nick hs)
  · exact wf_joinH h hc hs
  · injection hs with hs; subst hs; exact h.of_sameShape (sameShape_msg _ _ _)
  · exact h.of_sameShape (sameShape_msgH hs)
  · exact h.of_sameShape (sameShape_msgUser hs)
  · injection hs with hs; subst hs; exact h.of_sameShape (sameShape_msg _ _ _)
  · exact h.of_sameShape (sameShape_whois hs)
  · injection hs with hs; subst hs; exact h.of_sameShape (sameShape_whoisC _ _ _ _)
  · injection hs with hs; subst hs; exact h.of_sameShape (sameShape_help _ _)
  · injection hs with hs; subst hs; exact wf_quit h _

theorem wf_reorder {s : Server} (h : WellFormed s) {order : List ClientId}
    (hp : order.Perm s.members) : WellFormed { s with members := order } := by
  constructor
  · exact hp.nodup_iff.2 h.membersNodup
  · exact h.rosterNodup
  · exact h.rosterRoom
  · intro d hd
    exact h.roomRoster d (hp.mem_iff.1 hd)
  · intro d hd
    exact h.membersAlloc d (hp.mem_iff.1 hd)
  · exact h.freshRoom
  · exact h.roomAlloc
  · exact h.tableAlloc
  · exact h.tableName
  · exact h.tableHash
  · exact h.tableKeys

theorem wf_reorderRooms {s : Server} (h : WellFormed s) {order : List (String × RoomId)}
    (hp : order.Perm s.rooms) : WellFormed { s with rooms := order } := by
  constructor
  · exact h.membersNodup
  · exact h.rosterNodup
  · exact h.rosterRoom
  · exact h.roomRoster
  · exact h.membersAlloc
  · exact h.freshRoom
  · exact h.roomAlloc
  · intro k r hk
    exact h.tableAlloc k r (hp.mem_iff.1 hk)
  · intro k r hk
    exact h.tableName k r (hp.mem_iff.1 hk)
  · intro k r hk
    exact h.tableHash k r (hp.mem_iff.1 hk)
  · exact (hp.map Prod.fst).nodup_iff.2 h.tableKeys

theorem Reachable.wellFormed {s : Server} (h : Reachable s) : WellFormed s := by
  induction h with
  | init => exact wf_init
  | accept now addr _ hn ih => exact (wf_newClient ih hn).1
  | step now cmd _ hc hs ih => exact wf_handler ih hc hs
  | reorder order _ hp ih => exact wf_reorder ih hp
  | reorderRooms order _ hp ih => exact wf_reorderRooms ih hp
  | report c text _ _ ih => exact ih.of_sameShape (sameShape_connWrite _ c _)

/-! ## Lookup by nickname and the NICK handler -/

theorem find_none_iff (s : Server) (name : String) :
    s.findClientByNick name = none ↔ ∀ d ∈ s.members, (s.clientAt d).nick ≠ name := by
  unfold Server.findClientByNick
  rw [List.find?_eq_none]
  simp

theorem find_some_spec {s : Server} {name : String} {d : ClientId}
    (h : s.findClientByNick name = some d) : d ∈ s.members ∧ (s.clientAt d).nick = name := by
  unfold Server.findClientByNick at h
  refine ⟨List.mem_of_find?_eq_some h, ?_⟩
  simpa using List.find?_some h

theorem find_isSome_of_mem {s : Server} {name : String} {d : ClientId} (hd : d ∈ s.members)
    (hn : (s.clientAt d).nick = name) : (s.findClientByNick name).isSome = true := by
  unfold Server.findClientByNick
  rw [List.find?_isSome]
  exact ⟨d, hd, by simpa using hn⟩

@[simp] theorem broadcast_rooms (s : Server) (r : RoomId) (c : ClientId) (m : String) :
    (room.broadcast s r c m).rooms = s.rooms := by rw [broadcast_eq]
@[simp] theorem broadcast_members (s : Server) (r : RoomId) (c : ClientId) (m : String) :
    (room.broadcast s r c m).members = s.members := by rw [broadcast_eq]
@[simp] theorem broadcast_roomAt (s : Server) (r : RoomId) (c : ClientId) (m : String) :
    (room.broadcast s r c m).roomAt = s.roomAt := by rw [broadcast_eq]
@[simp] theorem broadcast_nextClient (s : Server) (r : RoomId) (c : ClientId) (m : String) :
    (room.broadcast s r c m).nextClient = s.nextClient := by rw [broadcast_eq]
@[simp] theorem broadcast_nextRoom (s : Server) (r : RoomId) (c : ClientId) (m : String) :
    (room.broadcast s r c m).nextRoom = s.nextRoom := by rw [broadcast_eq]
@[simp] theorem broadcast_nick (s : Server) (r : RoomId) (c d : ClientId) (m : String) :
    ((room.broadcast s r c m).clientAt d).nick = (s.clientAt d).nick := by rw [broadcast_eq]
@[simp] theorem broadcast_room (s : Server) (r : RoomId) (c d : ClientId) (m : String) :
    ((room.broadcast s r c m).clientAt d).room = (s.clientAt d).room := by rw [broadcast_eq]
@[simp] theorem broadcast_closed (s : Server) (r : RoomId) (c d : ClientId) (m : String) :
    ((room.broadcast s r c m).clientAt d).closed = (s.clientAt d).closed := by
  rw [broadcast_eq]
@[simp] theorem broadcast_written (s : Server) (r : RoomId) (c d : ClientId) (m : String) :
    ((room.broadcast s r c m).clientAt d).written =
      (s.clientAt d).written ++ copies (s.roomAt r).members c d m := by rw [broadcast_eq]

theorem copies_nodup {l : List ClientId} (hl : l.Nodup) (sender d : ClientId) (m : String) :
    copies l sender d m = if d ∈ l ∧ d ≠ sender then [m ++ "\n"] else [] := by
  unfold copies
  rw [List.count_eq_of_nodup hl]
  by_cases hs : sender = d
  · subst hs; simp
  · have : d ≠ sender := fun h => hs h.symm
    by_cases hd : d ∈ l <;> simp [hs, hd, this]

theorem nick_free {s : Server} {c : ClientId} {name : String} (rest : List String)
    (hfree : ∀ d ∈ s.members, (s.clientAt d).nick ≠ name) :
    s.nick c (name :: rest) = some (renamed s c name) := by
  have h := (find_none_iff s name).2 hfree
  rw [nick_cons, h]
  unfold renamed
  cases hroom : (s.clientAt c).room <;> simp

theorem nick_taken {s : Server} {c d : ClientId} {name : String} (rest : List String)
    (hd : d ∈ s.members) (hn : (s.clientAt d).nick = name) :
    s.nick c (name :: rest) =
      some (client.msg s c ("nick " ++ name ++ " is already taken")) := by
  rw [nick_cons, if_pos (find_isSome_of_mem hd hn)]

theorem renamed_spec (s : Server) (c : ClientId) (name : String) :
    SameShape s (renamed s c name) ∧
    (∀ d, ((renamed s c name).clientAt d).nick = if d = c then name else (s.clientAt d).nick) ∧
    (∀ d, ((renamed s c name).clientAt d).written =
      (s.clientAt d).written ++
        (if d = c then ["all right, I will call you " ++ name ++ "\n"] else []) ++
        match (s.clientAt c).room with
        | some r => copies (s.roomAt r).members c d
            ((s.clientAt c).nick ++ " is now known as " ++ name)
        | none => []) := by
  unfold renamed
  cases hroom : (s.clientAt c).room with
  | none =>
    refine ⟨(sameShape_setNick s c name).trans (sameShape_msg _ _ _), ?_, ?_⟩
    · intro d; simp
    · intro d; simp
  | some r =>
    refine ⟨((sameShape_setNick s c name).trans (sameShape_msg _ _ _)).trans
      (sameShape_broadcast _ _ _ _), ?_, ?_⟩
    · intro d; simp
    · intro d; simp

/-! ## Concrete reachable states -/

theorem oneSession_reachable : Reachable oneSession :=
  @Reachable.accept NewServer oneSession 0 0 "10.0.0.1:5000" Reachable.init rfl

theorem twoSessions_reachable : Reachable twoSessions :=
  @Reachable.accept oneSession twoSessions 1 0 "10.0.0.2:5000" oneSession_reachable rfl

theorem splitRooms_reachable : Reachable splitRooms :=
  @Reachable.step twoSessions splitRooms 0 ⟨.CMD_JOIN, 1, ["test"]⟩ twoSessions_reachable
    (by decide) rfl

theorem sameAddress_reachable : Reachable sameAddress :=
  @Reachable.accept oneSession sameAddress 1 0 "10.0.0.1:5000" oneSession_reachable rfl

/-! ## Rosters and notices after `client.join` -/

theorem mem_join_roster {s : Server} (h : WellFormed s) (c d : ClientId) (r x : RoomId) :
    d ∈ ((client.join s c r).roomAt x).members ↔
      (d = c ∧ x = r) ∨ (d ≠ c ∧ d ∈ (s.roomAt x).members) := by
  rw [(join_spec s c r).2.2.2.2.2.1]
  split
  · rename_i hx
    rw [mem_mapInsert, mem_rosterLeft h]
    by_cases hd : d = c <;> simp [hd, hx]
  · rename_i hx
    rw [mem_rosterLeft h]
    by_cases hd : d = c <;> simp [hd, hx]

theorem leftLines_other {s : Server} (h : WellFormed s) {c d : ClientId} (hd : d ≠ c) :
    leftLines s c d =
      match (s.clientAt c).room with
      | some o =>
        if d ∈ (s.roomAt o).members then [(s.clientAt c).nick ++ " has left the room" ++ "\n"]
        else []
      | none => [] := by
  unfold leftLines
  cases hroom : (s.clientAt c).room with
  | none => rfl
  | some o =>
    simp only
    rw [copies_nodup (nodup_mapDelete _ _ (h.rosterNodup o))]
    simp [mem_mapDelete, hd]

theorem leftLines_self (s : Server) (c : ClientId) : leftLines s c c = [] := by
  unfold leftLines
  cases hroom : (s.clientAt c).room <;> simp [copies]

/-! ## The claims -/

/-- C1: in every state reachable by admissions and dispatcher commands, a session of the
directory is in the roster of a room exactly when that room is its current room; hence it is
in the roster of at most one room. -/
theorem roster_iff_current_room (s : Server) (h : Reachable s) :
    (∀ c ∈ s.members, ∀ r : RoomId,
      c ∈ (s.roomAt r).members ↔ (s.clientAt c).room = some r) ∧
    (∀ c ∈ s.members, ∀ r1 r2 : RoomId,
      c ∈ (s.roomAt r1).members → c ∈ (s.roomAt r2).members → r1 = r2) := by
  have hw := h.wellFormed
  refine ⟨fun c hc r => ⟨hw.rosterRoom c r, hw.roomRoster c hc r⟩, ?_⟩
  intro c _ r1 r2 h1 h2
  have e1 := hw.rosterRoom c r1 h1
  have e2 := hw.rosterRoom c r2 h2
  rw [e1] at e2
  exact Option.some.inj e2

/-- Witness of C1 at the state where the second of two sessions has moved from the lobby to
another room. -/
theorem roster_iff_current_room_witness :
    Reachable splitRooms ∧
    ((∀ c ∈ splitRooms.members, ∀ r : RoomId,
      c ∈ (splitRooms.roomAt r).members ↔ (splitRooms.clientAt c).room = some r) ∧
    (∀ c ∈ splitRooms.members, ∀ r1 r2 : RoomId,
      c ∈ (splitRooms.roomAt r1).members → c ∈ (splitRooms.roomAt r2).members → r1 = r2)) :=
  ⟨splitRooms_reachable, roster_iff_current_room splitRooms splitRooms_reachable⟩

/-- C2, evaluated at the failing input: two connections whose remote address prints the same,
`10.0.0.1:5000`, are accepted one after the other.  No command is involved.  Both sessions are
in the directory, they are two sessions, and both carry the address as their nickname. -/
theorem default_nick_collides :
    NewServer.Run 0 [some "10.0.0.1:5000", some "10.0.0.1:5000"] = some sameAddress ∧
    Reachable sameAddress ∧ sameAddress.members = [0, 1] ∧
    (sameAddress.clientAt 0).nick = "10.0.0.1:5000" ∧
    (sameAddress.clientAt 1).nick = "10.0.0.1:5000" ∧ ¬ UniqueNicks sameAddress := by
  refine ⟨rfl, sameAddress_reachable, by decide, by decide, by decide, ?_⟩
  intro hu
  have := hu 0 (by decide) 1 (by decide) (by decide)
  exact absurd this (by decide)

/-- C3: two different live sessions ask for the same free name and the dispatcher runs the two
NICK commands one after the other.  The first gets the name; the second is told
"nick NAME is already taken", keeps its previous nickname, and nothing else changes in the
second step: directory, room table, rooms and every other client are as before. -/
theorem nick_race_one_winner (s : Server) (c1 c2 : ClientId) (name : String)
    (hlive1 : c1 ∈ s.members) (hlive2 : c2 ∈ s.members) (hne : c1 ≠ c2)
    (hfree : ∀ d ∈ s.members, (s.clientAt d).nick ≠ name) :
    ∃ s1 s2, s.nick c1 [name] = some s1 ∧ s1.nick c2 [name] = some s2 ∧
      (s1.clientAt c1).nick = name ∧ (s2.clientAt c1).nick = name ∧
      (s2.clientAt c2).nick = (s.clientAt c2).nick ∧ (s2.clientAt c2).nick ≠ name ∧
      (s2.clientAt c2).written =
        (s1.clientAt c2).written ++ ["nick " ++ name ++ " is already taken" ++ "\n"] ∧
      (s2.clientAt c2).room = (s1.clientAt c2).room ∧
      s2.members = s1.members ∧ s2.rooms = s1.rooms ∧ s2.roomAt = s1.roomAt ∧
      (∀ d, d ≠ c2 → s2.clientAt d = s1.clientAt d) := by
  obtain ⟨hshape, hnick, -⟩ := renamed_spec s c1 name
  have hm : c1 ∈ (renamed s c1 name).members := by rw [hshape.2.1]; exact hlive1
  have hn1 : ((renamed s c1 name).clientAt c1).nick = name := by rw [hnick]; simp
  have hne2 : c2 ≠ c1 := fun e => hne e.symm
  have hn2 : ((renamed s c1 name).clientAt c2).nick = (s.clientAt c2).nick := by
    rw [hnick]; simp [hne2]
  refine ⟨renamed s c1 name, client.msg (renamed s c1 name) c2
    ("nick " ++ name ++ " is already taken"), nick_free [] hfree, nick_taken [] hm hn1,
    hn1, ?_, ?_, ?_, ?_, ?_, rfl, rfl, rfl, ?_⟩
  · rw [msg_nick]; exact hn1
  · rw [msg_nick]; exact hn2
  · rw [msg_nick, hn2]; exact hfree c2 hlive2
  · rw [msg_written]; simp
  · rw [msg_room]
  · intro d hd
    simp [client.msg, connWrite, Function.update_apply, hd]

/-- Witness of C3: the two sessions of the lobby both ask for `alice`, session 0 first. -/
theorem nick_race_one_winner_witness :
    (0 : ClientId) ∈ twoSessions.members ∧ (1 : ClientId) ∈ twoSessions.members ∧
    (0 : ClientId) ≠ 1 ∧ (∀ d ∈ twoSessions.members, (twoSessions.clientAt d).nick ≠ "alice") ∧
    ∃ s1 s2, twoSessions.nick 0 ["alice"] = some s1 ∧ s1.nick 1 ["alice"] = some s2 ∧
      (s1.clientAt 0).nick = "alice" ∧ (s2.clientAt 0).nick = "alice" ∧
      (s2.clientAt 1).nick = (twoSessions.clientAt 1).nick ∧ (s2.clientAt 1).nick ≠ "alice" ∧
      (s2.clientAt 1).written =
        (s1.clientAt 1).written ++ ["nick " ++ "alice" ++ " is already taken" ++ "\n"] ∧
      (s2.clientAt 1).room = (s1.clientAt 1).room ∧
      s2.members = s1.members ∧ s2.rooms = s1.rooms ∧ s2.roomAt = s1.roomAt ∧
      (∀ d, d ≠ 1 → s2.clientAt d = s1.clientAt d) :=
  ⟨by decide, by decide, by decide, by decide,
    nick_race_one_winner twoSessions 0 1 "alice" (by decide) (by decide) (by decide)
      (by decide)⟩

/-- C4 fails as stated: session 0 of the lobby asks for the nickname it already has, which no
other live session holds.  The request is rejected: session 0 is told that the name is taken,
and session 1, in the same room, is told nothing. -/
theorem nick_own_name_rejected :
    (∀ d ∈ twoSessions.members, d ≠ 0 → (twoSessions.clientAt d).nick ≠ "10.0.0.1:5000") ∧
    (twoSessions.clientAt 0).nick = "10.0.0.1:5000" ∧
    (twoSessions.nick 0 ["10.0.0.1:5000"]).map (fun s => (s.clientAt 0).written) =
      some ["welcome to #lobby\n", "10.0.0.2:5000 has joined the room\n",
        "nick 10.0.0.1:5000 is already taken\n"] ∧
    (twoSessions.nick 0 ["10.0.0.1:5000"]).map (fun s => (s.clientAt 1).written) =
      some ["welcome to #lobby\n"] := by
  decide

/-- C4, amended: NICK with `args = [name]` is rejected exactly when some live session, the
caller included, holds `name`.  When no live session holds it, the caller gets the name and
is told so, and every other member of the caller's room is told
"OLD is now known as NEW" once; nobody else is told anything. -/
theorem nick_accepts_unheld_name (s : Server) (h : Reachable s) (c : ClientId)
    (name : String) :
    ((∃ d ∈ s.members, (s.clientAt d).nick = name) →
      s.nick c [name] = some (client.msg s c ("nick " ++ name ++ " is already taken"))) ∧
    ((∀ d ∈ s.members, (s.clientAt d).nick ≠ name) →
      ∃ s1, s.nick c [name] = some s1 ∧ (s1.clientAt c).nick = name ∧
        (s1.clientAt c).written =
          (s.clientAt c).written ++ ["all right, I will call you " ++ name ++ "\n"] ∧
        ∀ d, d ≠ c → (s1.clientAt d).nick = (s.clientAt d).nick ∧
          (s1.clientAt d).written = (s.clientAt d).written ++
            match (s.clientAt c).room with
            | some r =>
              if d ∈ (s.roomAt r).members then
                [(s.clientAt c).nick ++ " is now known as " ++ name ++ "\n"]
              else []
            | none => []) := by
  have hw := h.wellFormed
  constructor
  · rintro ⟨d, hd, hn⟩
    exact nick_taken [] hd hn
  · intro hfree
    obtain ⟨-, hnick, hwr⟩ := renamed_spec s c name
    refine ⟨renamed s c name, nick_free [] hfree, ?_, ?_, ?_⟩
    · rw [hnick]; simp
    · rw [hwr]
      cases hroom : (s.clientAt c).room <;> simp [copies]
    · intro d hd
      refine ⟨by rw [hnick]; simp [hd], ?_⟩
      rw [hwr]
      cases hroom : (s.clientAt c).room with
      | none => simp [hd]
      | some r =>
        simp only [hd, if_false, List.append_nil]
        rw [copies_nodup (hw.rosterNodup r)]
        simp [hd]

/-- Witness of C4 (amended): session 0 of the lobby takes the free name `alice`. -/
theorem nick_accepts_unheld_name_witness :
    Reachable twoSessions ∧
    (∀ d ∈ twoSessions.members, (twoSessions.clientAt d).nick ≠ "alice") ∧
    ∃ s1, twoSessions.nick 0 ["alice"] = some s1 ∧ (s1.clientAt 0).nick = "alice" ∧
      (s1.clientAt 0).written =
        (twoSessions.clientAt 0).written ++ ["all right, I will call you " ++ "alice" ++ "\n"] ∧
      ∀ d, d ≠ 0 → (s1.clientAt d).nick = (twoSessions.clientAt d).nick ∧
        (s1.clientAt d).written = (twoSessions.clientAt d).written ++
          match (twoSessions.clientAt 0).room with
          | some r =>
            if d ∈ (twoSessions.roomAt r).members then
              [(twoSessions.clientAt 0).nick ++ " is now known as " ++ "alice" ++ "\n"]
            else []
          | none => [] :=
  ⟨twoSessions_reachable, by decide,
    (nick_accepts_unheld_name twoSessions twoSessions_reachable 0 "alice").2 (by decide)⟩

/-- C5, evaluated at the failing input: the reader hands the whole token list, keyword
first, to the dispatcher and `Server.nick` takes `args[0]` for the name.  After the line
`/nick alice` the nickname of session 0 is `/nick`, not `alice`; the second session's
`/nick alice` is answered "nick /nick is already taken" and its nickname stays the
address it was admitted with. -/
theorem nick_line_takes_keyword :
    client.readTurn 0 (some "/nick alice\n") =
      some (.next [.enqueue ⟨.CMD_NICK, 0, ["/nick", "alice"]⟩]) ∧
    (oneSession.onLine 0 0 "/nick alice\n").map (fun s => (s.clientAt 0).nick) =
      some "/nick" ∧
    nickScenario.map (fun s => ((s.clientAt 0).nick, (s.clientAt 1).nick)) =
      some ("/nick", "10.0.0.2:5000") ∧
    nickScenario.map (fun s => (s.clientAt 1).written) =
      some ["welcome to #lobby\n", "nick /nick is already taken\n"] := by
  decide

/-- C6, evaluated at the failing input: `Server.join` takes the keyword `args[0]` for the room
name, so the line `/join test` of session 0 is answered "welcome to #/join" and the room
table holds `#/join`, not `#test`.  The rest of the scenario goes as claimed: session 0 is
sent the join notice and the chat line of session 1, which gets no copy of its own line. -/
theorem join_line_takes_keyword :
    (oneSession.onLine 0 0 "/join test\n").map (fun s => (s.clientAt 0).written) =
      some ["welcome to #lobby\n", "welcome to #/join\n"] ∧
    roundTrip.map (fun s => s.rooms.map Prod.fst) = some ["#lobby", "#/join"] ∧
    roundTrip.map (fun s => (s.clientAt 0).written) =
      some ["welcome to #lobby\n", "welcome to #/join\n",
        "10.0.0.2:5000 has joined the room\n", "10.0.0.2:5000: hello\n"] ∧
    roundTrip.map (fun s => (s.clientAt 1).written) =
      some ["welcome to #lobby\n", "welcome to #/join\n"] := by
  decide

/-- C7: JOIN with `args = [roomName]` in a reachable state.  Afterwards the current room of
`c` is the room the table stores under the canonical name, which bears that name; `c` is in
that roster and in no other, and the rosters are otherwise unchanged; `c` is sent exactly one
line, "welcome to CANONICAL"; every other client is sent "NICK has left the room" if it is
in the roster of the previous room of `c`, then "NICK has joined the room" if it is in the
roster of the new room, and nothing else. -/
theorem join_moves_session (s : Server) (h : Reachable s) (c : ClientId)
    (roomName : String) :
    ∃ s1 r, s.join c [roomName] = some s1 ∧
      s1.rooms.lookup (canonical roomName) = some r ∧
      (s1.roomAt r).name = canonical roomName ∧
      (s1.clientAt c).room = some r ∧
      (∀ x, c ∈ (s1.roomAt x).members ↔ x = r) ∧
      (∀ d x, d ≠ c → (d ∈ (s1.roomAt x).members ↔ d ∈ (s.roomAt x).members)) ∧
      (s1.clientAt c).written =
        (s.clientAt c).written ++ ["welcome to " ++ canonical roomName ++ "\n"] ∧
      (∀ d, d ≠ c → (s1.clientAt d).written = (s.clientAt d).written ++
        (match (s.clientAt c).room with
          | some o =>
            if d ∈ (s.roomAt o).members then
              [(s.clientAt c).nick ++ " has left the room" ++ "\n"]
            else []
          | none => []) ++
        (if d ∈ (s1.roomAt r).members then
          [(s.clientAt c).nick ++ " has joined the room" ++ "\n"]
        else [])) := by
  have hw := h.wellFormed
  obtain ⟨g1, -, g3, -, g5, -, g7, -, -⟩ := getOrCreateRoom_spec hw roomName
  generalize hp : s.getOrCreateRoom roomName = p at g1 g3 g5 g7
  obtain ⟨s0, r⟩ := p
  simp only at g1 g3 g5 g7
  obtain ⟨-, -, -, -, j5, j6, -, -, -, -, j11, j12⟩ := join_spec s0 c r
  have hname : (s0.roomAt r).name = canonical roomName := g1.tableName _ _ g3
  have hmem := mem_join_roster g1 c
  have hrl : ∀ d, d ≠ c → (d ∈ rosterLeft s0 c r ↔ d ∈ (s.roomAt r).members) := by
    intro d hd
    rw [mem_rosterLeft g1, g7]
    simp [hd]
  refine ⟨client.msg (client.join s0 c r) c ("welcome to " ++ (s0.roomAt r).name), r, ?_,
    ?_, ?_, ?_, ?_, ?_, ?_, ?_⟩
  · rw [join_cons, hp]
  · rw [msg_rooms, (join_spec s0 c r).1]
    exact lookup_of_mem _ _ _ g1.tableKeys g3
  · rw [msg_roomAt, j5, hname]
  · rw [msg_room, j11]; simp
  · intro x
    rw [msg_roomAt, hmem]
    simp
  · intro d x hd
    rw [msg_roomAt, hmem, g7]
    simp [hd]
  · rw [msg_written, j12, leftLines_self, hname, g5]
    simp [copies]
  · intro d hd
    have e : (d ∈ mapInsert c (rosterLeft s0 c r)) ↔ d ∈ (s.roomAt r).members := by
      rw [mem_mapInsert, hrl d hd]; simp [hd]
    have e2 : d ∈ ((client.msg (client.join s0 c r) c
        ("welcome to " ++ (s0.roomAt r).name)).roomAt r).members ↔
        d ∈ (s.roomAt r).members := by
      rw [msg_roomAt, hmem, g7]; simp [hd]
    rw [msg_written, j12, leftLines_other g1 hd, g5,
      copies_nodup (nodup_mapInsert _ _ (nodup_rosterLeft g1 c r))]
    simp only [e, e2, hd, if_false, List.append_nil, ne_eq, not_false_eq_true, and_true]
    cases hroom : (s.clientAt c).room <;> simp [g7]

/-- Witness of C7: client 1 of the lobby joins `test`. -/
theorem join_moves_session_witness :
    Reachable twoSessions ∧
    ∃ s1 r, twoSessions.join 1 ["test"] = some s1 ∧
      s1.rooms.lookup (canonical "test") = some r ∧
      (s1.roomAt r).name = canonical "test" ∧
      (s1.clientAt 1).room = some r ∧
      (∀ x, 1 ∈ (s1.roomAt x).members ↔ x = r) ∧
      (∀ d x, d ≠ 1 → (d ∈ (s1.roomAt x).members ↔ d ∈ (twoSessions.roomAt x).members)) ∧
      (s1.clientAt 1).written =
        (twoSessions.clientAt 1).written ++ ["welcome to " ++ canonical "test" ++ "\n"] ∧
      (∀ d, d ≠ 1 → (s1.clientAt d).written = (twoSessions.clientAt d).written ++
        (match (twoSessions.clientAt 1).room with
          | some o =>
            if d ∈ (twoSessions.roomAt o).members then
              [(twoSessions.clientAt 1).nick ++ " has left the room" ++ "\n"]
            else []
          | none => []) ++
        (if d ∈ (s1.roomAt r).members then
          [(twoSessions.clientAt 1).nick ++ " has joined the room" ++ "\n"]
        else [])) :=
  ⟨twoSessions_reachable, join_moves_session twoSessions twoSessions_reachable 1 "test"⟩

/-- C8, evaluated at the failing input.  In package `lib` the canonical name always starts
with `#` and canonicalization is idempotent.  The root `server.join` only rewrites names
longer than one byte: the name `x` stays `x`, the room is created under the key `x` with
the name `x`, and the session is welcomed to `x`. -/
theorem root_join_keeps_short_name :
    (∀ n, strings.HasPrefix (canonical n) "#" = true) ∧
    (∀ n, canonical (canonical n) = canonical n) ∧
    canonical "x" = "#x" ∧ Main.canonical "x" = "x" ∧ Main.canonical "" = "" ∧
    Main.shortName.map (fun s => s.rooms.map Prod.fst) = some ["#lobby", "x"] ∧
    Main.shortName.map (fun s => (s.clientAt 0).room.map (fun r => (s.roomAt r).name)) =
      some (some "x") ∧
    Main.shortName.map (fun s => (s.clientAt 0).written) =
      some ["> welcome to #lobby\n", "> welcome to x\n"] :=
  ⟨canonical_hash, canonical_idem, by decide, by decide, by decide, by decide, by decide,
    by decide⟩

/-- C9: MSG from a session `c` whose current room is `r`, in a reachable state, with any
token list.  Every member of the roster of `r` other than `c` is sent exactly one line,
"NICK: " followed by the tokens joined by single spaces; `c` and every client outside the
roster are sent nothing; nothing else changes. -/
theorem msg_reaches_room (s : Server) (h : Reachable s) (c : ClientId) (r : RoomId)
    (hr : (s.clientAt c).room = some r) (args : List String) :
    ∃ s1, s.msg c args = some s1 ∧
      (∀ d, (s1.clientAt d).written = (s.clientAt d).written ++
        if d ∈ (s.roomAt r).members ∧ d ≠ c then
          [(s.clientAt c).nick ++ ": " ++ strings.Join args " " ++ "\n"]
        else []) ∧
      s1.members = s.members ∧ s1.rooms = s.rooms ∧ s1.roomAt = s.roomAt ∧
      (∀ d, (s1.clientAt d).nick = (s.clientAt d).nick ∧
        (s1.clientAt d).room = (s.clientAt d).room) := by
  have hw := h.wellFormed
  refine ⟨room.broadcast s r c ((s.clientAt c).nick ++ ": " ++ strings.Join args " "), ?_,
    ?_, ?_, ?_, ?_, ?_⟩
  · unfold Server.msg
    simp [hr]
  · intro d
    rw [broadcast_written, copies_nodup (hw.rosterNodup r)]
  · simp
  · simp
  · simp
  · intro d; simp

/-- Witness of C9: client 1 of the lobby says two words. -/
theorem msg_reaches_room_witness :
    Reachable twoSessions ∧ (twoSessions.clientAt 1).room = some 0 ∧
    ∃ s1, twoSessions.msg 1 ["hello", "world"] = some s1 ∧
      (∀ d, (s1.clientAt d).written = (twoSessions.clientAt d).written ++
        if d ∈ (twoSessions.roomAt 0).members ∧ d ≠ 1 then
          [(twoSessions.clientAt 1).nick ++ ": " ++ strings.Join ["hello", "world"] " " ++ "\n"]
        else []) ∧
      s1.members = twoSessions.members ∧ s1.rooms = twoSessions.rooms ∧
      s1.roomAt = twoSessions.roomAt ∧
      (∀ d, (s1.clientAt d).nick = (twoSessions.clientAt d).nick ∧
        (s1.clientAt d).room = (twoSessions.clientAt d).room) :=
  ⟨twoSessions_reachable, by decide,
    msg_reaches_room twoSessions twoSessions_reachable 1 0 (by decide) ["hello", "world"]⟩

/-- C10, evaluated at the failing input: session 0, whose nickname is `10.0.0.1:5000`, sends
the line `/msg 10.0.0.1:5000 hi`.  The reader enqueues MSG_USER with the keyword as first
argument, the handler looks up the nickname `/msg`, and the sender is answered
"user /msg not found", not "you can't send message to yourself".  Session 1 receives
nothing. -/
theorem own_nick_line_not_found :
    Reachable twoSessions ∧ (0 : ClientId) ∈ twoSessions.members ∧
    (twoSessions.clientAt 0).nick = "10.0.0.1:5000" ∧
    client.readTurn 0 (some "/msg 10.0.0.1:5000 hi\n") =
      some (.next [.enqueue ⟨.CMD_MSG_USER, 0, ["/msg", "10.0.0.1:5000", "hi"]⟩]) ∧
    (twoSessions.onLine 0 0 "/msg 10.0.0.1:5000 hi\n").map (fun s => (s.clientAt 0).written) =
      some ((twoSessions.clientAt 0).written ++ ["user /msg not found\n"]) ∧
    (twoSessions.onLine 0 0 "/msg 10.0.0.1:5000 hi\n").map (fun s => (s.clientAt 0).written) ≠
      some ((twoSessions.clientAt 0).written ++ ["you can't send message to yourself\n"]) ∧
    (twoSessions.onLine 0 0 "/msg 10.0.0.1:5000 hi\n").map (fun s => (s.clientAt 1).written) =
      some (twoSessions.clientAt 1).written :=
  ⟨twoSessions_reachable, by decide, by decide, by decide, by decide, by decide, by decide⟩

/-! ## Private messages, the member list and error reports -/

/-- A nickname carried by exactly one live session is resolved to that session. -/
theorem find_of_unique {s : Server} {name : String} {t : ClientId} (ht : t ∈ s.members)
    (hn : (s.clientAt t).nick = name)
    (hu : ∀ d ∈ s.members, (s.clientAt d).nick = name → d = t) :
    s.findClientByNick name = some t := by
  have hs := find_isSome_of_mem ht hn
  cases hf : s.findClientByNick name with
  | none => rw [hf] at hs; cases hs
  | some d =>
    obtain ⟨hd, hdn⟩ := find_some_spec hf
    rw [hu d hd hdn]

theorem connWrite_other (s : Server) {c d : ClientId} (b : String) (hd : d ≠ c) :
    (connWrite s c b).clientAt d = s.clientAt d := by
  rw [connWrite_clientAt]
  simp [hd]

/-- The delivery branch of `Server.msgUser`: called with `args = [targetNick, w1, ..., wn]`,
`n ≥ 1`, in a state where the directory scan resolves `targetNick` to a session `t` other than
the sender `c`, the handler sends `t` the one line "private message from NICK: " followed by
the words joined by single spaces, and changes nothing else. -/
theorem msgUser_delivers (s : Server) (c t : ClientId) (targetNick w : String)
    (ws : List String) (hnames : s.findClientByNick targetNick = some t) (hne : t ≠ c) :
    ∃ s1, s.msgUser c (targetNick :: w :: ws) = some s1 ∧
      (s1.clientAt t).written = (s.clientAt t).written ++
        ["private message from " ++ (s.clientAt c).nick ++ ": " ++
          strings.Join (w :: ws) " " ++ "\n"] ∧
      (∀ d, d ≠ t → s1.clientAt d = s.clientAt d) ∧
      (s1.clientAt t).nick = (s.clientAt t).nick ∧
      (s1.clientAt t).room = (s.clientAt t).room ∧
      s1.members = s.members ∧ s1.rooms = s.rooms ∧ s1.roomAt = s.roomAt := by
  refine ⟨client.msg s t ("private message from " ++ (s.clientAt c).nick ++ ": " ++
    strings.Join (w :: ws) " "), ?_, ?_, ?_, ?_, ?_, rfl, rfl, rfl⟩
  · rw [msgUser_cons, hnames]
    simp [hne]
  · rw [msg_written]; simp
  · intro d hd
    exact connWrite_other s _ hd
  · rw [msg_nick]
  · rw [msg_room]

/-- C11, evaluated at the failing input: session 1 is live under the nickname `10.0.0.2:5000`
and session 0 sends the line `/msg 10.0.0.2:5000 hi`.  The reader enqueues MSG_USER with the
keyword as first argument, so the handler looks up the nickname `/msg`: session 1 receives
nothing and the sender is answered "user /msg not found". -/
theorem msg_line_looks_up_keyword :
    Reachable twoSessions ∧ (1 : ClientId) ∈ twoSessions.members ∧
    (twoSessions.clientAt 1).nick = "10.0.0.2:5000" ∧
    client.readTurn 0 (some "/msg 10.0.0.2:5000 hi\n") =
      some (.next [.enqueue ⟨.CMD_MSG_USER, 0, ["/msg", "10.0.0.2:5000", "hi"]⟩]) ∧
    (twoSessions.onLine 0 0 "/msg 10.0.0.2:5000 hi\n").map (fun s => (s.clientAt 1).written) =
      some (twoSessions.clientAt 1).written ∧
    (twoSessions.onLine 0 0 "/msg 10.0.0.2:5000 hi\n").map (fun s => (s.clientAt 0).written) =
      some ((twoSessions.clientAt 0).written ++ ["user /msg not found\n"]) :=
  ⟨twoSessions_reachable, by decide, by decide, by decide, by decide, by decide⟩

/-- C12, evaluated at the failing input: session 0 is alone in the lobby, session 1 is in
`#test`.  The reply to LIST_MEMBERS from session 0 lists the whole directory, session 1
included. -/
theorem members_lists_directory :
    Reachable splitRooms ∧ (splitRooms.clientAt 0).room = some 0 ∧
    (splitRooms.roomAt 0).members = [0] ∧ (splitRooms.clientAt 1).room = some 1 ∧
    (splitRooms.clientAt 1).nick = "10.0.0.2:5000" ∧
    (splitRooms.handler 0 ⟨.CMD_LIST_MEMBERS, 0, []⟩).map (fun s => (s.clientAt 0).written) =
      some ((splitRooms.clientAt 0).written ++ ["members: 10.0.0.1:5000, 10.0.0.2:5000\n"]) :=
  ⟨splitRooms_reachable, by decide, by decide, by decide, by decide, by decide⟩

/-- C15, evaluated at the failing input: on the line `/foo` the reader enqueues nothing and
calls `c.err` once, but what `c.err` writes has no line terminator, so the next line the
server sends (here the reply to `/rooms`) continues the error line. -/
theorem unknown_command_error_unterminated :
    client.readTurn 0 (some "/foo\n") = some (.next [.err 0 "unknown command: /foo"]) ∧
    (oneSession.onLine 0 0 "/foo\n").map (fun s => (s.clientAt 0).written) =
      some ["welcome to #lobby\n", "err: unknown command: /foo"] ∧
    ((oneSession.onLine 0 0 "/foo\n").bind (fun s => s.onLine 0 0 "/rooms\n")).map
      (fun s => String.join (s.clientAt 0).written) =
      some "welcome to #lobby\nerr: unknown command: /fooavailable rooms: #lobby\n" := by
  decide

/-! ## Handlers that leave the shared state alone -/

theorem sameState_refl (s : Server) : SameState s s :=
  ⟨rfl, rfl, rfl, fun _ => ⟨rfl, rfl⟩⟩

theorem sameState_trans {s s1 s2 : Server} (h1 : SameState s s1) (h2 : SameState s1 s2) :
    SameState s s2 := by
  obtain ⟨a1, a2, a3, a4⟩ := h1
  obtain ⟨b1, b2, b3, b4⟩ := h2
  exact ⟨b1.trans a1, b2.trans a2, b3.trans a3,
    fun d => ⟨(b4 d).1.trans (a4 d).1, (b4 d).2.trans (a4 d).2⟩⟩

theorem sameState_msg (s : Server) (c : ClientId) (m : String) :
    SameState s (client.msg s c m) :=
  ⟨rfl, rfl, rfl, fun d => ⟨msg_nick s c d m, msg_room s c d m⟩⟩

theorem sameState_broadcast (s : Server) (r : RoomId) (c : ClientId) (m : String) :
    SameState s (room.broadcast s r c m) :=
  ⟨broadcast_members s r c m, broadcast_rooms s r c m, broadcast_roomAt s r c m,
    fun d => ⟨broadcast_nick s r c d m, broadcast_room s r c d m⟩⟩

theorem sameState_whoisC (s : Server) (now : Nat) (c other : ClientId) :
    SameState s (client.whois s now c other) := by
  unfold client.whois
  simp only
  have h4 := sameState_trans (sameState_trans (sameState_trans
    (sameState_msg s c ("nick: " ++ (s.clientAt other).nick))
    (sameState_msg _ c ("addr: " ++ (s.clientAt other).remoteAddr)))
    (sameState_msg _ c ("joined: " ++ timeString (s.clientAt other).joined)))
    (sameState_msg _ c ("since: " ++ timeString (now - (s.clientAt other).joined)))
  split
  · exact sameState_trans h4 (sameState_msg _ _ _)
  · exact h4

theorem sameState_foldl_msg (c : ClientId) (lines : List String) (s : Server) :
    SameState s (lines.foldl (fun acc line => client.msg acc c line) s) := by
  induction lines generalizing s with
  | nil => exact sameState_refl s
  | cons a l ih => exact sameState_trans (sameState_msg s c a) (ih _)

theorem msgH_total (s : Server) (c : ClientId) (args : List String) :
    ∃ s1, s.msg c args = some s1 ∧ SameState s s1 := by
  unfold Server.msg
  simp only
  split
  · exact ⟨_, rfl, sameState_broadcast _ _ _ _⟩
  · exact ⟨_, rfl, sameState_msg _ _ _⟩

theorem msgUser_total (s : Server) (c : ClientId) (args : List String) :
    ∃ s1, s.msgUser c args = some s1 ∧ SameState s s1 := by
  by_cases hlen : args.length < 2
  · exact ⟨_, msgUser_short s c args hlen, sameState_msg _ _ _⟩
  · match args, hlen with
    | target :: word :: rest, _ =>
      rw [msgUser_cons]
      split
      · exact ⟨_, rfl, sameState_msg _ _ _⟩
      · split
        · exact ⟨_, rfl, sameState_msg _ _ _⟩
        · exact ⟨_, rfl, sameState_msg _ _ _⟩
    | [], hlen => simp at hlen
    | [_], hlen => simp at hlen

theorem whois_total (s : Server) (now : Nat) (c : ClientId) (args : List String) :
    ∃ s1, s.whois now c args = some s1 ∧ SameState s s1 := by
  cases args with
  | nil => exact ⟨_, whois_nil s now c, sameState_msg _ _ _⟩
  | cons a rest =>
    rw [whois_cons]
    split
    · exact ⟨_, rfl, sameState_msg _ _ _⟩
    · exact ⟨_, rfl, sameState_whoisC _ _ _ _⟩

theorem nick_total (s : Server) (c : ClientId) (args : List String) :
    ∃ s1, s.nick c args = some s1 := by
  cases args with
  | nil => exact ⟨_, nick_nil s c⟩
  | cons a rest =>
    rw [nick_cons]
    split
    · exact ⟨_, rfl⟩
    · simp only
      split <;> exact ⟨_, rfl⟩

theorem join_total (s : Server) (c : ClientId) (args : List String) :
    ∃ s1, s.join c args = some s1 := by
  cases args with
  | nil => exact ⟨_, join_nil s c⟩
  | cons a rest => exact ⟨_, join_cons s c a rest⟩

/-- C16: the handlers ROOMS, MSG, MSG_USER, LIST_MEMBERS, WHOIS, ME and HELP, with any
arguments, complete and leave the shared state as it was: directory, room table, every
roster, and the nickname and current room of every client.  So do NICK and JOIN without an
argument and NICK for a name a live session holds.  WHOIS for a nickname no live session
holds writes "user NICK not found" to the caller and changes nothing else. -/
theorem handlers_leave_shared_state (s : Server) (now : Nat) (c : ClientId) :
    (∀ cmd : command, cmd.id ≠ .CMD_NICK → cmd.id ≠ .CMD_JOIN → cmd.id ≠ .CMD_QUIT →
      ∃ s1, s.handler now cmd = some s1 ∧ SameState s s1) ∧
    (∃ s1, s.handler now ⟨.CMD_NICK, c, []⟩ = some s1 ∧ SameState s s1) ∧
    (∃ s1, s.handler now ⟨.CMD_JOIN, c, []⟩ = some s1 ∧ SameState s s1) ∧
    (∀ (name : String) (rest : List String), (∃ d ∈ s.members, (s.clientAt d).nick = name) →
      ∃ s1, s.handler now ⟨.CMD_NICK, c, name :: rest⟩ = some s1 ∧ SameState s s1) ∧
    (∀ (name : String) (rest : List String), (∀ d ∈ s.members, (s.clientAt d).nick ≠ name) →
      ∃ s1, s.handler now ⟨.CMD_WHOIS, c, name :: rest⟩ = some s1 ∧ SameState s s1 ∧
        (s1.clientAt c).written =
          (s.clientAt c).written ++ ["user " ++ name ++ " not found" ++ "\n"] ∧
        ∀ d, d ≠ c → s1.clientAt d = s.clientAt d) := by
  refine ⟨?_, ?_, ?_, ?_, ?_⟩
  · intro cmd h1 h2 h3
    obtain ⟨id, cl, args⟩ := cmd
    cases id
    · exact absurd rfl h1
    · exact absurd rfl h2
    · exact ⟨_, rfl, sameState_msg _ _ _⟩
    · exact msgH_total s cl args
    · exact msgUser_total s cl args
    · exact ⟨_, rfl, sameState_msg _ _ _⟩
    · exact whois_total s now cl args
    · exact ⟨_, rfl, sameState_whoisC _ _ _ _⟩
    · exact ⟨_, rfl, sameState_foldl_msg _ _ _⟩
    · exact absurd rfl h3
  · exact ⟨_, nick_nil s c, sameState_msg _ _ _⟩
  · exact ⟨_, join_nil s c, sameState_msg _ _ _⟩
  · rintro name rest ⟨d, hd, hn⟩
    exact ⟨_, nick_taken rest hd hn, sameState_msg _ _ _⟩
  · intro name rest hfree
    refine ⟨client.msg s c ("user " ++ name ++ " not found"), ?_, sameState_msg _ _ _, ?_, ?_⟩
    · show s.whois now c (name :: rest) = _
      rw [whois_cons, (find_none_iff s name).2 hfree]
    · rw [msg_written]; simp
    · intro d hd
      exact connWrite_other s _ hd

/-- Witness of C16: in the lobby, session 0 asks WHOIS for a nickname nobody holds. -/
theorem handlers_leave_shared_state_witness :
    (∀ d ∈ twoSessions.members, (twoSessions.clientAt d).nick ≠ "nobody") ∧
    ∃ s1, twoSessions.handler 0 ⟨.CMD_WHOIS, 0, "nobody" :: []⟩ = some s1 ∧
      SameState twoSessions s1 ∧
      (s1.clientAt 0).written =
        (twoSessions.clientAt 0).written ++ ["user " ++ "nobody" ++ " not found" ++ "\n"] ∧
      ∀ d, d ≠ 0 → s1.clientAt d = twoSessions.clientAt d :=
  ⟨by decide,
    (handlers_leave_shared_state twoSessions 0 0).2.2.2.2 "nobody" [] (by decide)⟩

/-- C17: every handler of the dispatcher completes, whatever the command kind, the argument
list and the state: no index or slice expression goes out of range and no nil pointer is
followed. -/
theorem handler_total (s : Server) (now : Nat) (cmd : command) :
    ∃ s1, s.handler now cmd = some s1 := by
  obtain ⟨id, cl, args⟩ := cmd
  cases id
  · exact nick_total s cl args
  · exact join_total s cl args
  · exact ⟨_, rfl⟩
  · exact (msgH_total s cl args).imp fun _ h => h.1
  · exact (msgUser_total s cl args).imp fun _ h => h.1
  · exact ⟨_, rfl⟩
  · exact (whois_total s now cl args).imp fun _ h => h.1
  · exact ⟨_, rfl⟩
  · exact ⟨_, rfl⟩
  · exact ⟨_, rfl⟩

/-! ## After QUIT -/

theorem mapDelete_absent {k : Nat} {l : List Nat} (h : k ∉ l) : mapDelete k l = l := by
  unfold mapDelete
  rw [List.filter_eq_self]
  intro a ha
  have : a ≠ k := fun e => h (e ▸ ha)
  simpa using this

theorem gone_quit {s : Server} (h : WellFormed s) (c : ClientId) : Gone c (s.quit c) := by
  obtain ⟨-, h2, -, -, -, h6, -⟩ := quit_spec s c
  constructor
  · rw [h2, mem_mapDelete]; exact fun hc => hc.2 rfl
  · intro x
    rw [h6, mem_rosterLeft h]; exact fun hc => hc.2 rfl

theorem gone_of_sameShape {s s1 : Server} {c : ClientId} (hs : SameShape s s1)
    (hg : Gone c s) : Gone c s1 := by
  obtain ⟨-, a2, a3, -⟩ := hs
  exact ⟨by rw [a2]; exact hg.1, fun x => by rw [a3]; exact hg.2 x⟩

theorem gone_joinH {s s1 : Server} (h : WellFormed s) {c d : ClientId} (hd : d ≠ c)
    {args : List String} (hj : s.join d args = some s1) (hg : Gone c s) : Gone c s1 := by
  cases args with
  | nil =>
    rw [join_nil] at hj
    injection hj with hj
    subst hj
    exact gone_of_sameShape (sameShape_msg _ _ _) hg
  | cons a rest =>
    rw [join_cons] at hj
    injection hj with hj
    subst hj
    obtain ⟨g1, -, -, g4, -, -, g7, -, -⟩ := getOrCreateRoom_spec h a
    obtain ⟨-, j2, -⟩ := join_spec (s.getOrCreateRoom a).1 d (s.getOrCreateRoom a).2
    constructor
    · rw [msg_members, j2, g4]; exact hg.1
    · intro x
      rw [msg_roomAt, mem_join_roster g1, g7]
      have hcd : c ≠ d := fun e => hd e.symm
      simp [hcd, hg.2 x]

theorem gone_quit_other {s : Server} (h : WellFormed s) {c d : ClientId} (hg : Gone c s) :
    Gone c (s.quit d) := by
  obtain ⟨-, h2, -, -, -, h6, -⟩ := quit_spec s d
  constructor
  · rw [h2, mem_mapDelete]; exact fun hc => hg.1 hc.1
  · intro x
    rw [h6, mem_rosterLeft h]; exact fun hc => hg.2 x hc.1

theorem gone_handler {s s1 : Server} (h : WellFormed s) {c : ClientId} {now : Nat}
    {cmd : command} (hd : cmd.client ≠ c) (hs : s.handler now cmd = some s1)
    (hg : Gone c s) : Gone c s1 := by
  unfold Server.handler at hs
  split at hs
  · exact gone_of_sameShape (sameShape_nick hs) hg
  · exact gone_joinH h hd hs hg
  · injection hs with hs; subst hs; exact gone_of_sameShape (sameShape_msg _ _ _) hg
  · exact gone_of_sameShape (sameShape_msgH hs) hg
  · exact gone_of_sameShape (sameShape_msgUser hs) hg
  · injection hs with hs; subst hs; exact gone_of_sameShape (sameShape_msg _ _ _) hg
  · exact gone_of_sameShape (sameShape_whois hs) hg
  · injection hs with hs; subst hs; exact gone_of_sameShape (sameShape_whoisC _ _ _ _) hg
  · injection hs with hs; subst hs; exact gone_of_sameShape (sameShape_help _ _) hg
  · injection hs with hs; subst hs; exact gone_quit_other h hg

theorem handler_nextClient {s s1 : Server} {now : Nat} {cmd : command}
    (hs : s.handler now cmd = some s1) : s1.nextClient = s.nextClient := by
  unfold Server.handler at hs
  split at hs
  · exact (sameShape_nick hs).2.2.2.1
  · exact (joinH_frame hs).1
  · injection hs with hs; subst hs; rfl
  · exact (sameShape_msgH hs).2.2.2.1
  · exact (sameShape_msgUser hs).2.2.2.1
  · injection hs with hs; subst hs; rfl
  · exact (sameShape_whois hs).2.2.2.1
  · injection hs with hs; subst hs; exact (sameShape_whoisC _ _ _ _).2.2.2.1
  · injection hs with hs; subst hs; exact (sameShape_help _ _).2.2.2.1
  · injection hs with hs; subst hs; exact (quit_spec s _).2.2.1

theorem gone_newClient {s s1 : Server} (h : WellFormed s) {c d : ClientId} {now : Nat}
    {addr : String} (hc : c < s.nextClient) (hn : s.newClient now addr = some (s1, d))
    (hg : Gone c s) : Gone c s1 := by
  unfold Server.newClient at hn
  simp only [Option.bind_eq_bind, Option.bind_eq_some] at hn
  obtain ⟨s3, hj, heq⟩ := hn
  injection heq with heq
  injection heq with e1 e2
  subst e1 e2
  have hne : s.nextClient ≠ c := Nat.ne_of_gt hc
  have hcn : c ≠ s.nextClient := Nat.ne_of_lt hc
  refine gone_joinH (wf_beforeLobby h now addr) hne hj ?_
  · constructor
    · simp only [Server.addMember]
      rw [mem_mapInsert]
      rintro (e | e)
      · exact hcn e
      · exact hg.1 e
    · exact hg.2

theorem later_invariant {c : ClientId} {s s2 : Server} (hl : LaterWithout c s s2)
    (hr : Reachable s) (hc : c < s.nextClient) (hg : Gone c s) :
    Reachable s2 ∧ c < s2.nextClient ∧ Gone c s2 := by
  induction hl with
  | here => exact ⟨hr, hc, hg⟩
  | accept now addr _ hn ih =>
    obtain ⟨r1, c1, g1⟩ := ih
    have hw := wf_newClient r1.wellFormed hn
    exact ⟨Reachable.accept now addr r1 hn, by rw [hw.2.2]; exact Nat.lt_succ_of_lt c1,
      gone_newClient r1.wellFormed c1 hn g1⟩
  | step now cmd _ hd ha hs ih =>
    obtain ⟨r1, c1, g1⟩ := ih
    exact ⟨Reachable.step now cmd r1 ha hs, by rw [handler_nextClient hs]; exact c1,
      gone_handler r1.wellFormed hd hs g1⟩
  | reorder order _ hp ih =>
    obtain ⟨r1, c1, g1⟩ := ih
    exact ⟨Reachable.reorder order r1 hp, c1, fun hm => g1.1 (hp.mem_iff.1 hm), g1.2⟩
  | reorderRooms order _ hp ih =>
    obtain ⟨r1, c1, g1⟩ := ih
    exact ⟨Reachable.reorderRooms order r1 hp, c1, g1⟩
  | report d text _ _ hd ih =>
    obtain ⟨r1, c1, g1⟩ := ih
    exact ⟨Reachable.report d text r1 hd, c1, g1⟩

theorem broadcast_skips_absent (s : Server) (r : RoomId) (sender c : ClientId) (m : String)
    (hc : c ∉ (s.roomAt r).members) :
    ((room.broadcast s r sender m).clientAt c).written = (s.clientAt c).written := by
  rw [broadcast_written]
  unfold copies
  rw [List.count_eq_zero_of_not_mem hc]
  simp

theorem quit_again {s : Server} {c : ClientId} (hg : Gone c s) :
    (s.quit c).members = s.members ∧
    ∀ x, ((s.quit c).roomAt x).members = (s.roomAt x).members := by
  obtain ⟨-, h2, -, -, -, h6, -⟩ := quit_spec s c
  refine ⟨by rw [h2, mapDelete_absent hg.1], fun x => ?_⟩
  rw [h6]
  unfold rosterLeft
  split
  · exact mapDelete_absent (hg.2 x)
  · rfl

/-- C13: QUIT of an allocated client `c` in a reachable state.  Afterwards `c` is in neither
the directory nor any roster, and every other client is sent "NICK has left the room" exactly
when it is in the roster of the room `c` was in.  In every later state reached without a
command of `c`, the client stays out of directory and rosters, a broadcast in any room writes
nothing to its connection, and a second QUIT of `c` leaves the directory and every roster as
they are. -/
theorem quit_removes_session (s : Server) (h : Reachable s) (c : ClientId)
    (hc : c < s.nextClient) :
    c ∉ (s.quit c).members ∧ (∀ x : RoomId, c ∉ ((s.quit c).roomAt x).members) ∧
    (∀ d, d ≠ c → ((s.quit c).clientAt d).written = (s.clientAt d).written ++
      match (s.clientAt c).room with
      | some o =>
        if d ∈ (s.roomAt o).members then
          [(s.clientAt c).nick ++ " has left the room" ++ "\n"]
        else []
      | none => []) ∧
    (∀ s2, LaterWithout c (s.quit c) s2 →
      c ∉ s2.members ∧ (∀ x : RoomId, c ∉ (s2.roomAt x).members) ∧
      (∀ (r : RoomId) (sender : ClientId) (m : String),
        ((room.broadcast s2 r sender m).clientAt c).written = (s2.clientAt c).written) ∧
      (s2.quit c).members = s2.members ∧
      (∀ x : RoomId, ((s2.quit c).roomAt x).members = (s2.roomAt x).members)) := by
  have hw := h.wellFormed
  have hg := gone_quit hw c
  have hq : Reachable (s.quit c) := Reachable.step 0 ⟨.CMD_QUIT, c, []⟩ h hc rfl
  have hcq : c < (s.quit c).nextClient := by rw [(quit_spec s c).2.2.1]; exact hc
  refine ⟨hg.1, hg.2, ?_, ?_⟩
  · intro d hd
    rw [(quit_spec s c).2.2.2.2.2.2.2.2.2 d, leftLines_other hw hd]
    cases hroom : (s.clientAt c).room <;> simp [hd]
  · intro s2 hl
    obtain ⟨-, -, g2⟩ := later_invariant hl hq hcq hg
    exact ⟨g2.1, g2.2, fun r sender m => broadcast_skips_absent s2 r sender c m (g2.2 r),
      (quit_again g2).1, (quit_again g2).2⟩

/-- Witness of C13: session 1 of the lobby quits. -/
theorem quit_removes_session_witness :
    Reachable twoSessions ∧ (1 : ClientId) < twoSessions.nextClient ∧
    (1 ∉ (twoSessions.quit 1).members ∧
    (∀ x : RoomId, 1 ∉ ((twoSessions.quit 1).roomAt x).members) ∧
    (∀ d, d ≠ 1 → ((twoSessions.quit 1).clientAt d).written =
      (twoSessions.clientAt d).written ++
      match (twoSessions.clientAt 1).room with
      | some o =>
        if d ∈ (twoSessions.roomAt o).members then
          [(twoSessions.clientAt 1).nick ++ " has left the room" ++ "\n"]
        else []
      | none => []) ∧
    (∀ s2, LaterWithout 1 (twoSessions.quit 1) s2 →
      1 ∉ s2.members ∧ (∀ x : RoomId, 1 ∉ (s2.roomAt x).members) ∧
      (∀ (r : RoomId) (sender : ClientId) (m : String),
        ((room.broadcast s2 r sender m).clientAt 1).written = (s2.clientAt 1).written) ∧
      (s2.quit 1).members = s2.members ∧
      (∀ x : RoomId, ((s2.quit 1).roomAt x).members = (s2.roomAt x).members))) :=
  ⟨twoSessions_reachable, by decide,
    quit_removes_session twoSessions twoSessions_reachable 1 (by decide)⟩

/-! ## The reader -/

/-- The shapes a turn of the reader loop can take: it enqueues one command that is not QUIT,
or reports one error, or leaves the loop. -/
theorem readTurn_cases (c : ClientId) (read : Option String) :
    client.readTurn c read = some .stop ∨
    (∃ cmd, client.readTurn c read = some (.next [.enqueue cmd]) ∧ cmd.id ≠ .CMD_QUIT ∧
      cmd.client = c) ∨
    (∃ text, client.readTurn c read = some (.next [.err c text])) := by
  unfold client.readTurn
  cases hr : readLimitedMessage read with
  | none => exact Or.inl rfl
  | some msg =>
    obtain ⟨tok, rest, hs⟩ := split_cons (strings.Trim msg "\r\n") ' '
    dsimp only
    rw [hs, List.getElem?_cons_zero, Option.bind_eq_bind, Option.some_bind]
    by_cases h0 : (strings.TrimSpace tok).data.head? = some '/'
    · rw [if_pos h0]
      by_cases h1 : strings.TrimSpace tok = "/nick"
      · rw [if_pos h1]; exact Or.inr (Or.inl ⟨_, rfl, by simp, rfl⟩)
      rw [if_neg h1]
      by_cases h2 : strings.TrimSpace tok = "/join"
      · rw [if_pos h2]; exact Or.inr (Or.inl ⟨_, rfl, by simp, rfl⟩)
      rw [if_neg h2]
      by_cases h3 : strings.TrimSpace tok = "/rooms"
      · rw [if_pos h3]; exact Or.inr (Or.inl ⟨_, rfl, by simp, rfl⟩)
      rw [if_neg h3]
      by_cases h4 : strings.TrimSpace tok = "/msg"
      · rw [if_pos h4]; exact Or.inr (Or.inl ⟨_, rfl, by simp, rfl⟩)
      rw [if_neg h4]
      by_cases h5 : strings.TrimSpace tok = "/members"
      · rw [if_pos h5]; exact Or.inr (Or.inl ⟨_, rfl, by simp, rfl⟩)
      rw [if_neg h5]
      by_cases h6 : strings.TrimSpace tok = "/whois"
      · rw [if_pos h6]; exact Or.inr (Or.inl ⟨_, rfl, by simp, rfl⟩)
      rw [if_neg h6]
      by_cases h7 : strings.TrimSpace tok = "/me"
      · rw [if_pos h7]; exact Or.inr (Or.inl ⟨_, rfl, by simp, rfl⟩)
      rw [if_neg h7]
      by_cases h8 : strings.TrimSpace tok = "/help"
      · rw [if_pos h8]; exact Or.inr (Or.inl ⟨_, rfl, by simp, rfl⟩)
      rw [if_neg h8]
      by_cases h9 : strings.TrimSpace tok = "/quit"
      · rw [if_pos h9]; exact Or.inl rfl
      rw [if_neg h9]
      exact Or.inr (Or.inr ⟨_, rfl⟩)
    · rw [if_neg h0]
      exact Or.inr (Or.inl ⟨_, rfl, by simp, rfl⟩)

/-- A line whose first piece, white space removed, does not start with `/` is enqueued as a
MSG command with all pieces as arguments. -/
theorem readTurn_plain (c : ClientId) {read : Option String} {msg tok : String}
    {rest : List String} (hr : readLimitedMessage read = some msg)
    (hs : strings.Split (strings.Trim msg "\r\n") ' ' = tok :: rest)
    (hplain : (strings.TrimSpace tok).data.head? ≠ some '/') :
    client.readTurn c read = some (.next [.enqueue ⟨.CMD_MSG, c, tok :: rest⟩]) := by
  unfold client.readTurn
  rw [hr]
  dsimp only
  rw [hs, List.getElem?_cons_zero, Option.bind_eq_bind, Option.some_bind, if_neg hplain]

theorem readInput_ends_with_quit (c : ClientId) (lines : List String) :
    ∃ pre, client.readInput c lines = some (pre ++ [client.quit c]) ∧
      ∀ e ∈ pre, ∀ cmd, e = .enqueue cmd → cmd.id ≠ .CMD_QUIT := by
  induction lines with
  | nil => exact ⟨[], rfl, by simp⟩
  | cons line rest ih =>
    obtain ⟨pre, hpre, hq⟩ := ih
    unfold client.readInput
    rcases readTurn_cases c (some line) with h | ⟨cmd, h, hid, -⟩ | ⟨text, h⟩
    · rw [h]
      exact ⟨[], rfl, by simp⟩
    · rw [h, hpre]
      refine ⟨.enqueue cmd :: pre, rfl, ?_⟩
      intro e he cmd2 hc
      rcases List.mem_cons.1 he with he | he
      · subst he
        injection hc with hc
        subst hc
        exact hid
      · exact hq e he cmd2 hc
    · rw [h, hpre]
      refine ⟨.err c text :: pre, rfl, ?_⟩
      intro e he cmd2 hc
      rcases List.mem_cons.1 he with he | he
      · subst he
        cases hc
      · exact hq e he cmd2 hc

theorem readInput_stops (c : ClientId) (pre : List String) (l : String) (post : List String)
    (hl : client.readTurn c (some l) = some .stop) :
    client.readInput c (pre ++ l :: post) = client.readInput c pre := by
  induction pre with
  | nil =>
    simp only [List.nil_append]
    unfold client.readInput
    rw [hl]
  | cons a pre ih =>
    simp only [List.cons_append]
    unfold client.readInput
    rw [ih]

theorem truncateBytes_replicate (n : Nat) (rest : List Char) :
    truncateBytes n (List.replicate (n + 1) 'a' ++ rest) = List.replicate n 'a' := by
  have h1 : Char.utf8Size 'a' = 1 := by decide
  induction n with
  | zero => simp [truncateBytes, h1]
  | succ n ih =>
    rw [List.replicate_succ, List.cons_append, truncateBytes, h1,
      if_pos (Nat.succ_le_succ (Nat.zero_le n)), Nat.add_sub_cancel, ih]
    rfl

/-- A cut inside a character, at 7 bytes instead of `MAX_MSG_BODY`: of the two bytes of `é`
the first is kept, and it stops the removal of white space at the end of the piece, which is
therefore not the keyword `/quit`.  A cut between characters keeps whole characters only. -/
theorem truncateBytes_cut :
    truncateBytes 7 "/quit\té".data = "/quit\t".data ++ [rawByte 0xC3] ∧
    strings.TrimSpace ⟨truncateBytes 7 "/quit\té".data⟩ =
      ⟨"/quit\t".data ++ [rawByte 0xC3]⟩ ∧
    truncateBytes 7 "/quit\t\tb".data = "/quit\t\t".data ∧
    strings.TrimSpace ⟨truncateBytes 7 "/quit\t\tb".data⟩ = "/quit" := by
  decide

theorem letters_size (n : Nat) :
    String.utf8ByteSize ⟨List.replicate n 'a' ++ ['\n']⟩ = n + 1 := by
  show String.utf8ByteSize.go (List.replicate n 'a' ++ ['\n']) = n + 1
  rw [utf8_go_replicate]
  show 0 + Char.utf8Size '\n' + n = n + 1
  have h1 : Char.utf8Size '\n' = 1 := by decide
  rw [h1]
  omega

theorem letters_read (n : Nat) (hn : n = MAX_MSG_BODY) :
    readLimitedMessage (some ⟨List.replicate (n + 1) 'a' ++ ['\n']⟩) =
      some ⟨List.replicate n 'a'⟩ := by
  have hgt : String.utf8ByteSize ⟨List.replicate (n + 1) 'a' ++ ['\n']⟩ > MAX_MSG_BODY := by
    rw [letters_size, ← hn]; omega
  unfold readLimitedMessage
  simp only
  rw [if_pos hgt, ← hn, truncateBytes_replicate]

theorem letters_turn (c : ClientId) (n : Nat) (hn : n + 1 = MAX_MSG_BODY) :
    client.readTurn c (some ⟨List.replicate (n + 1 + 1) 'a' ++ ['\n']⟩) =
      some (.next [.enqueue ⟨.CMD_MSG, c, [⟨List.replicate (n + 1) 'a'⟩]⟩]) := by
  refine readTurn_plain c (letters_read (n + 1) hn) ?_ ?_
  · rw [trim_replicate_a n]
    unfold strings.Split
    rw [splitChars_replicate_a]
    rfl
  · rw [trimSpace_replicate_a n]
    simp [List.replicate_succ]

theorem longLine_turn (c : ClientId) :
    client.readTurn c (some longLine) =
      some (.next [.enqueue ⟨.CMD_MSG, c, [⟨List.replicate 4096 'a'⟩]⟩]) :=
  letters_turn c 4095 rfl

theorem longLine_trim : strings.Trim longLine "\r\n" = ⟨List.replicate 4097 'a'⟩ :=
  trim_replicate_a_lf 4096

theorem longLine_size : longLine.utf8ByteSize = 4098 :=
  letters_size 4097

theorem onLine_plain (s : Server) (now : Nat) (c : ClientId) (r : RoomId) (line tok : String)
    (rest : List String) (hlen : line.utf8ByteSize ≤ MAX_MSG_BODY)
    (htok : strings.Split (strings.Trim line "\r\n") ' ' = tok :: rest)
    (hplain : (strings.TrimSpace tok).data.head? ≠ some '/')
    (hroom : (s.clientAt c).room = some r) :
    s.onLine now c line =
      some (room.broadcast s r c ((s.clientAt c).nick ++ ": " ++ strings.Trim line "\r\n")) := by
  have hr : readLimitedMessage (some line) = some line := by
    unfold readLimitedMessage
    simp only
    rw [if_neg (Nat.not_lt.mpr hlen)]
  have hj : strings.Join (tok :: rest) " " = strings.Trim line "\r\n" := by
    rw [← htok]; exact join_split _
  unfold Server.onLine
  rw [readTurn_plain c hr htok hplain]
  simp only [Server.run, Server.apply, Server.handler, Server.msg, hroom, hj]
  rfl

/-- The loop of the reader is left on a line exactly when the first piece of the line, cut
to `MAX_MSG_BODY` bytes and without its line end, is `/quit` once the white space around it is
removed. -/
theorem readTurn_stop_iff (c : ClientId) {l msg tok : String} {rest : List String}
    (hr : readLimitedMessage (some l) = some msg)
    (hs : strings.Split (strings.Trim msg "\r\n") ' ' = tok :: rest) :
    client.readTurn c (some l) = some .stop ↔ strings.TrimSpace tok = "/quit" := by
  unfold client.readTurn
  rw [hr]
  dsimp only
  rw [hs, List.getElem?_cons_zero, Option.bind_eq_bind, Option.some_bind]
  by_cases h9 : strings.TrimSpace tok = "/quit"
  · rw [h9]
    simp
  · by_cases h0 : (strings.TrimSpace tok).data.head? = some '/'
    · rw [if_pos h0]
      by_cases h1 : strings.TrimSpace tok = "/nick"
      · rw [if_pos h1]; simp [h9]
      rw [if_neg h1]
      by_cases h2 : strings.TrimSpace tok = "/join"
      · rw [if_pos h2]; simp [h9]
      rw [if_neg h2]
      by_cases h3 : strings.TrimSpace tok = "/rooms"
      · rw [if_pos h3]; simp [h9]
      rw [if_neg h3]
      by_cases h4 : strings.TrimSpace tok = "/msg"
      · rw [if_pos h4]; simp [h9]
      rw [if_neg h4]
      by_cases h5 : strings.TrimSpace tok = "/members"
      · rw [if_pos h5]; simp [h9]
      rw [if_neg h5]
      by_cases h6 : strings.TrimSpace tok = "/whois"
      · rw [if_pos h6]; simp [h9]
      rw [if_neg h6]
      by_cases h7 : strings.TrimSpace tok = "/me"
      · rw [if_pos h7]; simp [h9]
      rw [if_neg h7]
      by_cases h8 : strings.TrimSpace tok = "/help"
      · rw [if_pos h8]; simp [h9]
      rw [if_neg h8, if_neg h9]
      simp [h9]
    · rw [if_neg h0]
      simp [h9]

/-- C14: the reader of client `c` on a connection that delivers the lines `lines` and then
fails to read.  The method completes; the last thing it does is to enqueue the command QUIT
of client `c`, and nothing it does before is the enqueuing of a QUIT command: exactly one QUIT
is enqueued and it is the last command.  A line on which the loop is left cuts the input: the
events are those of the lines before it, whatever follows.  The loop is left on a line exactly
when the first piece of the line is `/quit` (white space around it removed), as on the line
`/quit`, and on a read failure. -/
theorem reader_quits_once (c : ClientId) (lines : List String) :
    (∃ pre, client.readInput c lines = some (pre ++ [event.enqueue ⟨.CMD_QUIT, c, []⟩]) ∧
      ∀ e ∈ pre, ∀ cmd, e = event.enqueue cmd → cmd.id ≠ .CMD_QUIT) ∧
    (∀ (pre : List String) (l : String) (post : List String),
      client.readTurn c (some l) = some .stop →
      client.readInput c (pre ++ l :: post) = client.readInput c pre) ∧
    (∀ (l msg tok : String) (rest : List String),
      readLimitedMessage (some l) = some msg →
      strings.Split (strings.Trim msg "\r\n") ' ' = tok :: rest →
      (client.readTurn c (some l) = some .stop ↔ strings.TrimSpace tok = "/quit")) ∧
    client.readTurn c (some "/quit\n") = some .stop ∧
    client.readTurn c none = some .stop :=
  ⟨readInput_ends_with_quit c lines, readInput_stops c,
    fun _ _ _ _ hr hs => readTurn_stop_iff c hr hs, rfl, rfl⟩

/-- Witness of C14: session 3 sends a chat line, `/rooms`, an unknown command, `/quit` and
one more line.  The reader enqueues MSG and ROOMS, reports the unknown command, and then
enqueues its one QUIT; the line after `/quit` produces nothing.  On a connection that fails
after the chat line the reader enqueues MSG and then QUIT, and on one that starts with
`/quit now` it enqueues QUIT only. -/
theorem reader_quits_once_witness :
    client.readInput 3 ["hello\n", "/rooms\n", "/foo\n", "/quit\n", "/nick x\n"] =
      some [.enqueue ⟨.CMD_MSG, 3, ["hello"]⟩, .enqueue ⟨.CMD_ROOMS, 3, []⟩,
        .err 3 "unknown command: /foo", .enqueue ⟨.CMD_QUIT, 3, []⟩] ∧
    client.readInput 3 ["hello\n"] =
      some [.enqueue ⟨.CMD_MSG, 3, ["hello"]⟩, .enqueue ⟨.CMD_QUIT, 3, []⟩] ∧
    client.readInput 3 ["/quit now\r\n", "hello\n"] = some [.enqueue ⟨.CMD_QUIT, 3, []⟩] ∧
    ((∃ pre, client.readInput 3 ["hello\n", "/rooms\n", "/foo\n", "/quit\n", "/nick x\n"] =
        some (pre ++ [event.enqueue ⟨.CMD_QUIT, 3, []⟩]) ∧
      ∀ e ∈ pre, ∀ cmd, e = event.enqueue cmd → cmd.id ≠ .CMD_QUIT) ∧
    (∀ (pre : List String) (l : String) (post : List String),
      client.readTurn 3 (some l) = some .stop →
      client.readInput 3 (pre ++ l :: post) = client.readInput 3 pre) ∧
    (∀ (l msg tok : String) (rest : List String),
      readLimitedMessage (some l) = some msg →
      strings.Split (strings.Trim msg "\r\n") ' ' = tok :: rest →
      (client.readTurn 3 (some l) = some .stop ↔ strings.TrimSpace tok = "/quit")) ∧
    client.readTurn 3 (some "/quit\n") = some .stop ∧
    client.readTurn 3 none = some .stop) :=
  ⟨by decide, by decide, by decide,
    reader_quits_once 3 ["hello\n", "/rooms\n", "/foo\n", "/quit\n", "/nick x\n"]⟩

theorem newClient_writes {s s1 : Server} (h : WellFormed s) {now : Nat} {addr : String}
    {c : ClientId} (hn : s.newClient now addr = some (s1, c)) :
    c ∉ s.members ∧ c ∈ s1.members ∧ ∃ r, s1.rooms.lookup "#lobby" = some r := by
  obtain ⟨-, hc, -⟩ := wf_newClient h hn
  unfold Server.newClient at hn
  simp only [Option.bind_eq_bind, Option.bind_eq_some] at hn
  obtain ⟨s3, hj, heq⟩ := hn
  injection heq with heq
  injection heq with e1 e2
  subst e1
  have hw := wf_beforeLobby h now addr
  refine ⟨?_, ?_, ?_⟩
  · rw [hc]
    exact fun hm => Nat.lt_irrefl _ (h.membersAlloc _ hm)
  · rw [(joinH_frame hj).2, hc]
    simp only [Server.addMember]
    rw [mem_mapInsert]
    exact Or.inl rfl
  · rw [join_cons] at hj
    injection hj with hj
    subst hj
    obtain ⟨g1, -, g3, -⟩ := getOrCreateRoom_spec hw "#lobby"
    have hcanon : canonical "#lobby" = "#lobby" := by decide
    rw [hcanon] at g3
    have hl := lookup_of_mem _ _ _ g1.tableKeys g3
    exact ⟨_, by rw [msg_rooms, (join_spec _ _ _).1]; exact hl⟩

/-- C18, evaluated at the failing input: a fresh server whose accept loop accepts one
connection.  No command has been sent to the dispatcher, and the loop of `Server.Run` has
itself written the directory (the new session is in it) and the room table (`#lobby` is
created): the state is the one `newClient` returns. -/
theorem accept_loop_writes_tables :
    NewServer.Run 0 [some "10.0.0.1:5000"] = some oneSession ∧
    (NewServer.newClient 0 "10.0.0.1:5000").map Prod.fst = some oneSession ∧
    NewServer.members = [] ∧ oneSession.members = [0] ∧
    NewServer.rooms = [] ∧ oneSession.rooms = [("#lobby", 0)] ∧
    (oneSession.roomAt 0).members = [0] :=
  ⟨rfl, rfl, rfl, by decide, rfl, by decide, by decide⟩

/-- C20 fails as stated, twice.  The first piece of the line `\t/help` does not begin with
`/`, yet the reader takes the line for the command `/help`, since it removes white space
around the first piece before it looks at it: nothing is relayed to the room.  And of a line
of 4097 letters only the first 4096 are relayed. -/
theorem plain_line_not_always_relayed :
    strings.Split (strings.Trim "\t/help\n" "\r\n") ' ' = ["\t/help"] ∧
    ("\t/help" : String).data.head? = some '\t' ∧
    client.readTurn 0 (some "\t/help\n") = some (.next [.enqueue ⟨.CMD_HELP, 0, []⟩]) ∧
    (twoSessions.onLine 0 0 "\t/help\n").map (fun s => (s.clientAt 1).written) =
      some (twoSessions.clientAt 1).written ∧
    longLine.utf8ByteSize = 4098 ∧
    strings.Trim longLine "\r\n" = ⟨List.replicate 4097 'a'⟩ ∧
    client.readTurn 0 (some longLine) =
      some (.next [.enqueue ⟨.CMD_MSG, 0, [⟨List.replicate 4096 'a'⟩]⟩]) :=
  ⟨by decide, by decide, by decide, by decide, longLine_size, longLine_trim, longLine_turn 0⟩

/-- C20, amended: a line of at most 4096 bytes whose first space-delimited piece, once the
white space around it is removed, is empty or does not begin with `/`, sent by a session in a
room, is relayed verbatim: the text broadcast to the room is the nickname, `": "`, and the
line without its leading and trailing CR and LF characters.  The reason is that the pieces
of a split at single spaces, joined by single spaces, give the string back. -/
theorem plain_line_relayed (s : Server) (now : Nat) (c : ClientId) (r : RoomId)
    (line tok : String) (rest : List String) (hlen : line.utf8ByteSize ≤ MAX_MSG_BODY)
    (htok : strings.Split (strings.Trim line "\r\n") ' ' = tok :: rest)
    (hplain : (strings.TrimSpace tok).data.head? ≠ some '/')
    (hroom : (s.clientAt c).room = some r) :
    s.onLine now c line =
      some (room.broadcast s r c ((s.clientAt c).nick ++ ": " ++ strings.Trim line "\r\n")) ∧
    ∀ text : String, strings.Join (strings.Split text ' ') " " = text :=
  ⟨onLine_plain s now c r line tok rest hlen htok hplain hroom, join_split⟩

/-- Witness of C20 (amended): session 1 of the lobby sends a line with a run of spaces and a
tab, ended by CR LF. -/
theorem plain_line_relayed_witness :
    ("so  long\tnow \r\n" : String).utf8ByteSize ≤ MAX_MSG_BODY ∧
    strings.Split (strings.Trim "so  long\tnow \r\n" "\r\n") ' ' =
      "so" :: ["", "long\tnow", ""] ∧
    (strings.TrimSpace "so").data.head? ≠ some '/' ∧
    (twoSessions.clientAt 1).room = some 0 ∧
    (twoSessions.onLine 0 1 "so  long\tnow \r\n" =
      some (room.broadcast twoSessions 0 1
        ((twoSessions.clientAt 1).nick ++ ": " ++ strings.Trim "so  long\tnow \r\n" "\r\n")) ∧
    ∀ text : String, strings.Join (strings.Split text ' ') " " = text) :=
  ⟨by decide, by decide, by decide, by decide,
    plain_line_relayed twoSessions 0 1 0 "so  long\tnow \r\n" "so" ["", "long\tnow", ""]
      (by decide) (by decide) (by decide) (by decide)⟩

example : (twoSessions.onLine 0 1 "so  long\tnow \r\n").map (fun s => (s.clientAt 0).written) = some ["welcome to #lobby\n", "10.0.0.2:5000 has joined the room\n", "10.0.0.2:5000: so  long\tnow \n"] := by decide

/-! ## Every session has a room -/

/-- What the JOIN handler does to current rooms: the caller's is set when a room name is
given and kept otherwise, everybody else's is kept. -/
theorem joinH_room {s s1 : Server} {c : ClientId} {args : List String}
    (hj : s.join c args = some s1) :
    (∀ d, d ≠ c → (s1.clientAt d).room = (s.clientAt d).room) ∧
    ((s.clientAt c).room ≠ none → (s1.clientAt c).room ≠ none) ∧
    (args ≠ [] → (s1.clientAt c).room ≠ none) := by
  cases args with
  | nil =>
    rw [join_nil] at hj
    injection hj with hj
    subst hj
    exact ⟨fun d _ => msg_room s c d _, fun h => by rw [msg_room]; exact h,
      fun h => absurd rfl h⟩
  | cons a rest =>
    rw [join_cons] at hj
    injection hj with hj
    subst hj
    have j11 := (join_spec (s.getOrCreateRoom a).1 c (s.getOrCreateRoom a).2).2.2.2.2.2.2.2.2.2.2.1
    have g5 : (s.getOrCreateRoom a).1.clientAt = s.clientAt := by
      rw [getOrCreateRoom_eq]
      split <;> rfl
    have hc : ((client.msg (client.join (s.getOrCreateRoom a).1 c (s.getOrCreateRoom a).2) c
        ("welcome to " ++
          ((s.getOrCreateRoom a).1.roomAt (s.getOrCreateRoom a).2).name)).clientAt c).room ≠
        none := by
      rw [msg_room, j11]
      simp
    refine ⟨?_, fun _ => hc, fun _ => hc⟩
    intro d hd
    rw [msg_room, j11, g5]
    simp [hd]

/-- The handlers keep a current room that is set. -/
theorem handler_keeps_room {s s1 : Server} {now : Nat} {cmd : command}
    (hs : s.handler now cmd = some s1) (d : ClientId) (hd : (s.clientAt d).room ≠ none) :
    (s1.clientAt d).room ≠ none := by
  unfold Server.handler at hs
  split at hs
  · rw [(sameShape_nick hs).2.2.2.2.2 d]; exact hd
  · by_cases hdc : d = cmd.client
    · subst hdc
      exact (joinH_room hs).2.1 hd
    · rw [(joinH_room hs).1 d hdc]; exact hd
  · injection hs with hs
    subst hs
    have e : SameShape s (s.listRooms cmd.client) := sameShape_msg _ _ _
    rw [e.2.2.2.2.2 d]; exact hd
  · rw [(sameShape_msgH hs).2.2.2.2.2 d]; exact hd
  · rw [(sameShape_msgUser hs).2.2.2.2.2 d]; exact hd
  · injection hs with hs
    subst hs
    have e : SameShape s (s.listMembers cmd.client) := sameShape_msg _ _ _
    rw [e.2.2.2.2.2 d]; exact hd
  · rw [(sameShape_whois hs).2.2.2.2.2 d]; exact hd
  · injection hs with hs
    subst hs
    have e : SameShape s (s.me now cmd.client) := sameShape_whoisC _ _ _ _
    rw [e.2.2.2.2.2 d]; exact hd
  · injection hs with hs
    subst hs
    rw [(sameShape_help s cmd.client).2.2.2.2.2 d]; exact hd
  · injection hs with hs
    subst hs
    rw [(quit_spec s cmd.client).2.2.2.2.2.2.2.1 d]; exact hd

/-- Admission keeps the current rooms of the clients there were and gives one to the new
client. -/
theorem newClient_room {s s1 : Server} {now : Nat} {addr : String} {c : ClientId}
    (hn : s.newClient now addr = some (s1, c)) :
    c = s.nextClient ∧ s1.nextClient = s.nextClient + 1 ∧ (s1.clientAt c).room ≠ none ∧
    ∀ d, d ≠ c → (s1.clientAt d).room = (s.clientAt d).room := by
  unfold Server.newClient at hn
  simp only [Option.bind_eq_bind, Option.bind_eq_some] at hn
  obtain ⟨s3, hj, heq⟩ := hn
  injection heq with heq
  injection heq with e1 e2
  subst e1 e2
  refine ⟨rfl, (joinH_frame hj).1, (joinH_room hj).2.2 (by simp), ?_⟩
  intro d hd
  rw [(joinH_room hj).1 d hd]
  simp [Server.addMember, Function.update_apply, hd]

/-- In a reachable state every allocated client has a current room. -/
theorem Reachable.hasRoom {s : Server} (h : Reachable s) :
    ∀ c, c < s.nextClient → (s.clientAt c).room ≠ none := by
  induction h with
  | init =>
    intro c hc
    exact absurd hc (Nat.not_lt_zero c)
  | @accept s0 s1 c now addr _ hn ih =>
    obtain ⟨e1, e2, e3, e4⟩ := newClient_room hn
    intro d hd
    by_cases hdc : d = c
    · rw [hdc]; exact e3
    · rw [e4 d hdc]
      apply ih
      rw [e2] at hd
      rw [e1] at hdc
      exact Nat.lt_of_le_of_ne (Nat.le_of_lt_succ hd) hdc
  | step now cmd _ _ hs ih =>
    intro d hd
    rw [handler_nextClient hs] at hd
    exact handler_keeps_room hs d (ih d hd)
  | reorder order _ _ ih => exact ih
  | reorderRooms order _ _ ih => exact ih
  | @report s0 c text _ _ ih =>
    intro d hd
    have e : ((client.err s0 c text).clientAt d).room = (s0.clientAt d).room :=
      (sameShape_connWrite s0 c ("err: " ++ text)).2.2.2.2.2 d
    rw [e]
    exact ih d hd

/-- C21: in every reachable state every session of the directory, and every allocated client
at all, has a current room.  Hence the MSG handler never takes its last branch for such a
client: it broadcasts in the client's room and writes nothing, in particular not
"you must join a room first.", to the client itself. -/
theorem session_always_has_room (s : Server) (h : Reachable s) :
    (∀ c ∈ s.members, ∃ r, (s.clientAt c).room = some r) ∧
    (∀ c, c < s.nextClient → ∀ (now : Nat) (args : List String),
      ∃ r, (s.clientAt c).room = some r ∧
        s.handler now ⟨.CMD_MSG, c, args⟩ =
          some (room.broadcast s r c ((s.clientAt c).nick ++ ": " ++ strings.Join args " ")) ∧
        s.handler now ⟨.CMD_MSG, c, args⟩ ≠
          some (client.msg s c "you must join a room first.") ∧
        ((room.broadcast s r c ((s.clientAt c).nick ++ ": " ++
          strings.Join args " ")).clientAt c).written = (s.clientAt c).written) := by
  have hroom := h.hasRoom
  have key : ∀ c, c < s.nextClient → ∃ r, (s.clientAt c).room = some r := by
    intro c hc
    cases hr : (s.clientAt c).room with
    | none => exact absurd hr (hroom c hc)
    | some r => exact ⟨r, rfl⟩
  refine ⟨fun c hc => key c (h.wellFormed.membersAlloc c hc), ?_⟩
  intro c hc now args
  obtain ⟨r, hr⟩ := key c hc
  have hw : ((room.broadcast s r c ((s.clientAt c).nick ++ ": " ++
      strings.Join args " ")).clientAt c).written = (s.clientAt c).written := by
    rw [broadcast_written]
    simp [copies]
  have hb : s.handler now ⟨.CMD_MSG, c, args⟩ =
      some (room.broadcast s r c ((s.clientAt c).nick ++ ": " ++ strings.Join args " ")) := by
    show s.msg c args = _
    unfold Server.msg
    simp [hr]
  refine ⟨r, hr, hb, ?_, hw⟩
  rw [hb]
  intro heq
  injection heq with heq
  have h1 := congrArg (fun t => ((t.clientAt c).written).length) heq
  simp only [hw, msg_written] at h1
  simp at h1

/-- Witness of C21: the two sessions of the lobby. -/
theorem session_always_has_room_witness :
    Reachable twoSessions ∧
    ((∀ c ∈ twoSessions.members, ∃ r, (twoSessions.clientAt c).room = some r) ∧
    (∀ c, c < twoSessions.nextClient → ∀ (now : Nat) (args : List String),
      ∃ r, (twoSessions.clientAt c).room = some r ∧
        twoSessions.handler now ⟨.CMD_MSG, c, args⟩ =
          some (room.broadcast twoSessions r c
            ((twoSessions.clientAt c).nick ++ ": " ++ strings.Join args " ")) ∧
        twoSessions.handler now ⟨.CMD_MSG, c, args⟩ ≠
          some (client.msg twoSessions c "you must join a room first.") ∧
        ((room.broadcast twoSessions r c ((twoSessions.clientAt c).nick ++ ": " ++
          strings.Join args " ")).clientAt c).written = (twoSessions.clientAt c).written)) :=
  ⟨twoSessions_reachable, session_always_has_room twoSessions twoSessions_reachable⟩

end Lib

namespace Main

/-! ## The root server -/

/-- C19, evaluated at the failing input: the root `server.addRoomMember` puts the session in
the roster and then `quitCurrentRoom` deletes it from the roster of its current room.  When
the session joins the room it is in, that is the same roster: afterwards `#lobby` is still
its current room and the roster of `#lobby` is empty. -/
theorem root_rejoin_empties_roster :
    (newServer.newClient "10.0.0.1:5000").map
      (fun p => ((p.1.clientAt 0).room, (p.1.roomAt 0).members)) = some (some 0, [0]) ∧
    rejoinLobby.map (fun s => s.rooms) = some [("#lobby", 0)] ∧
    rejoinLobby.map (fun s => (s.clientAt 0).room) = some (some 0) ∧
    rejoinLobby.map (fun s => (s.roomAt 0).members) = some [] ∧
    rejoinLobby.map (fun s => (s.clientAt 0).written) =
      some ["> welcome to #lobby\n", "> welcome to #lobby\n"] := by
  decide

end Main
